import Mathlib

/-!
Shallow embedding of `src/interpreter/interpreter.py` (font.properties semantic
normalizer and interpreter) and proofs about its specification claims.

The resolver part models `choose_font` / `is_excluded` over the normalized
model built by `build_normalized`: per-family entry lists, per-family exclusion
ranges, and the two globals.  Code points are arbitrary integers, exactly as in
the Python source (`int`).  Charsets are carried as the literal strings used by
the source (`"ANSI_CHARSET"`, `"SYMBOL_CHARSET"`).
-/

/-- Single-quote character, used to rebuild Python diagnostic strings that
quote identifiers. -/
def pySq : String := String.singleton (Char.ofNat 39)

/-- Normalized exclusion range: the `{start, end}` dicts produced by
`build_normalized` (the `line` field of parsed ranges is dropped there). -/
structure NRange where
  start : Int
  end_ : Int
deriving DecidableEq

/-- Normalized per-family font entry, as produced by `build_normalized`.
In the source, ANSI entries have no `converterClass` key at all and
`e.get("converterClass")` yields `None` for them; that is modelled by
`converterClass = none`. -/
structure FontEntry where
  index : Nat
  font : String
  charset : String
  needsConverted : Bool
  converterClass : Option String
deriving DecidableEq

/-- The two global settings carried through normalization (`globals_`). -/
structure Globals where
  defaultChar : Option Int
  inputTextCharset : Option String
deriving DecidableEq

/-- Resolution outcome: the result dict returned by `choose_font`, one variant
per `status` value. -/
inductive Outcome where
  | ok (family font charset : String) (needsConverted : Bool)
      (converterClass : Option String) (codepoint : Int)
  | excluded (family : String) (codepoint : Int) (fallbackDefaultChar : Option Int)
      (reason : String)
  | fallback (family : String) (codepoint : Int) (fallbackDefaultChar : Option Int)
      (reason : String)
deriving DecidableEq

/-- First-match association-list lookup, the model of Python dict access
(`families.get(family)` etc.); parse-produced maps never repeat a key. -/
def lookupA {α β : Type} [DecidableEq α] : List (α × β) → α → Option β
  | [], _ => none
  | p :: rest, k => if p.1 = k then some p.2 else lookupA rest k

/-- Python truthiness of an optional string, as in
`e.get("converterClass")` used as a condition: `None` and `""` are falsy. -/
def pyTruthyStr : Option String → Bool
  | none => false
  | some s => decide (s ≠ "")

/-- Model of `is_excluded(cp, ex_ranges)`: `ex_ranges or []` turns `None` into
the empty list, then any range with `start <= cp <= end` (inclusive) matches. -/
def is_excluded (cp : Int) (ex_ranges : Option (List NRange)) : Bool :=
  (ex_ranges.getD []).any (fun r => decide (r.start ≤ cp) && decide (cp ≤ r.end_))

/-- Trace line appended when an ANSI entry is checked. -/
def ansiCheckMsg (e : FontEntry) : String :=
  "Check ANSI " ++ e.font ++ " (index " ++ toString e.index ++ ")"

/-- Trace line appended when a SYMBOL entry is checked. -/
def symbolCheckMsg (e : FontEntry) : String :=
  "Check SYMBOL " ++ e.font ++ " (index " ++ toString e.index ++ ")"

/-- Trace line appended when a SYMBOL entry is skipped. -/
def symbolSkipMsg : String := "  skipped: NEED_CONVERTED or converterClass missing"

/-- The entry-iteration loop of `choose_font` (its `for e in fam_entries`),
threading the `trace` list being built.  Note that the loop body never
consults the `explain` flag: the trace is always accumulated. -/
def chooseLoop (family : String) (g : Globals) (codepoint : Int) :
    List FontEntry → List String → Outcome × List String
  | [], trace =>
    (Outcome.fallback family codepoint g.defaultChar "no matching entry", trace)
  | e :: rest, trace =>
    if e.charset = "ANSI_CHARSET" then
      let trace := trace ++ [ansiCheckMsg e]
      if codepoint ≤ 0xFF then
        (Outcome.ok family e.font e.charset false none codepoint, trace)
      else chooseLoop family g codepoint rest trace
    else if e.charset = "SYMBOL_CHARSET" then
      let trace := trace ++ [symbolCheckMsg e]
      if e.needsConverted && pyTruthyStr e.converterClass then
        (Outcome.ok family e.font e.charset true e.converterClass codepoint, trace)
      else chooseLoop family g codepoint rest (trace ++ [symbolSkipMsg])
    else chooseLoop family g codepoint rest trace

/-- Model of `choose_font(families, exclusions, globals_, family, codepoint,
explain)`.  Returns the decision and the trace, exactly as the source. -/
def choose_font (families : List (String × List FontEntry))
    (exclusions : List (String × List NRange)) (g : Globals)
    (family : String) (codepoint : Int) (explain : Bool) : Outcome × List String :=
  let fam_entries := (lookupA families family).getD []
  let ex_ranges := lookupA exclusions family
  if is_excluded codepoint ex_ranges then
    (Outcome.excluded family codepoint g.defaultChar
      "codepoint is in family exclusion range", [])
  else chooseLoop family g codepoint fam_entries []

/-- Whether an entry matches in the sense actually implemented by the loop
body of `choose_font` (Python truthiness on the converter class). -/
def entryMatches (cp : Int) (e : FontEntry) : Bool :=
  if e.charset = "ANSI_CHARSET" then decide (cp ≤ 0xFF)
  else if e.charset = "SYMBOL_CHARSET" then e.needsConverted && pyTruthyStr e.converterClass
  else false

/-- Whether an entry matches in the sense of the specification wording:
a Symbol entry matches iff `needs_converted` is true and `converter_class`
is present (non-null). -/
def entryMatchesSpec (cp : Int) (e : FontEntry) : Bool :=
  if e.charset = "ANSI_CHARSET" then decide (cp ≤ 0xFF)
  else if e.charset = "SYMBOL_CHARSET" then e.needsConverted && e.converterClass.isSome
  else false

/-- The `Ok` outcome `choose_font` builds for a matching entry. -/
def okOutcome (family : String) (cp : Int) (e : FontEntry) : Outcome :=
  if e.charset = "ANSI_CHARSET" then Outcome.ok family e.font e.charset false none cp
  else Outcome.ok family e.font e.charset true e.converterClass cp

/-- Trace lines contributed by examining one entry. -/
def entryTrace (cp : Int) (e : FontEntry) : List String :=
  if e.charset = "ANSI_CHARSET" then [ansiCheckMsg e]
  else if e.charset = "SYMBOL_CHARSET" then
    [symbolCheckMsg e] ++ (if entryMatches cp e then [] else [symbolSkipMsg])
  else []

/-- The prefix of entries the loop examines: everything up to and including
the first matching entry. -/
def examinedEntries (cp : Int) : List FontEntry → List FontEntry
  | [] => []
  | e :: rest => e :: (if entryMatches cp e then [] else examinedEntries cp rest)

theorem pyTruthyStr_eq_isSome (o : Option String) (h : o ≠ some "") :
    pyTruthyStr o = o.isSome := by
  cases o with
  | none => rfl
  | some s =>
    have hs : s ≠ "" := fun h2 => h (by rw [h2])
    simp [pyTruthyStr, hs]

theorem chooseLoop_fst (family : String) (g : Globals) (cp : Int)
    (entries : List FontEntry) (trace : List String)
    (hwf : ∀ e ∈ entries, (e.charset = "ANSI_CHARSET" ∨ e.charset = "SYMBOL_CHARSET") ∧
      (e.charset = "SYMBOL_CHARSET" → e.converterClass ≠ some "")) :
    (chooseLoop family g cp entries trace).1 =
      match entries.find? (entryMatchesSpec cp) with
      | some e => okOutcome family cp e
      | none => Outcome.fallback family cp g.defaultChar "no matching entry" := by
  induction entries generalizing trace with
  | nil => rfl
  | cons e rest ih =>
    obtain ⟨hcs, hcc⟩ := hwf e (List.mem_cons_self e rest)
    have hwf2 : ∀ x ∈ rest, (x.charset = "ANSI_CHARSET" ∨ x.charset = "SYMBOL_CHARSET") ∧
        (x.charset = "SYMBOL_CHARSET" → x.converterClass ≠ some "") :=
      fun x hx => hwf x (List.mem_cons_of_mem e hx)
    rcases hcs with h | h
    · by_cases hcp : cp ≤ 0xFF
      · simp [chooseLoop, h, hcp, List.find?, entryMatchesSpec, okOutcome]
      · simp [chooseLoop, h, hcp, List.find?, entryMatchesSpec, ih _ hwf2]
    · have hne : e.charset ≠ "ANSI_CHARSET" := by
        rw [h]; decide
      have htr : pyTruthyStr e.converterClass = e.converterClass.isSome :=
        pyTruthyStr_eq_isSome _ (hcc h)
      by_cases hm : e.needsConverted && e.converterClass.isSome
      · simp [chooseLoop, h, hne, htr, hm, List.find?, entryMatchesSpec, okOutcome]
      · simp [chooseLoop, h, hne, htr, hm, List.find?, entryMatchesSpec, ih _ hwf2]

theorem chooseLoop_snd (family : String) (g : Globals) (cp : Int)
    (entries : List FontEntry) (trace : List String) :
    (chooseLoop family g cp entries trace).2 =
      trace ++ ((examinedEntries cp entries).map (entryTrace cp)).flatten := by
  induction entries generalizing trace with
  | nil => simp [chooseLoop, examinedEntries]
  | cons e rest ih =>
    by_cases h : e.charset = "ANSI_CHARSET"
    · by_cases hcp : cp ≤ 0xFF
      · simp [chooseLoop, h, hcp, examinedEntries, entryTrace, entryMatches]
      · simp [chooseLoop, h, hcp, examinedEntries, entryTrace, entryMatches, ih]
    · by_cases h2 : e.charset = "SYMBOL_CHARSET"
      · by_cases hm : e.needsConverted && pyTruthyStr e.converterClass
        · simp [chooseLoop, h, h2, hm, examinedEntries, entryTrace, entryMatches]
        · simp [chooseLoop, h, h2, hm, examinedEntries, entryTrace, entryMatches, ih]
      · simp [chooseLoop, h, h2, examinedEntries, entryTrace, entryMatches, ih]

/-- C1: for every canonical model, family name, and code point, if the family
has at least one exclusion range `[start, end]` in the model with
`start ≤ code_point ≤ end` (bounds inclusive), then `choose_font` returns an
`Excluded` outcome carrying the global `default_char`, regardless of which
font entries the family has. -/
theorem C1_exclusion_precedence (families : List (String × List FontEntry))
    (exclusions : List (String × List NRange)) (g : Globals)
    (family : String) (cp : Int) (explain : Bool)
    (h : ∃ r ∈ (lookupA exclusions family).getD [], r.start ≤ cp ∧ cp ≤ r.end_) :
    choose_font families exclusions g family cp explain =
      (Outcome.excluded family cp g.defaultChar
        "codepoint is in family exclusion range", []) := by
  obtain ⟨r, hr, h1, h2⟩ := h
  have hex : is_excluded cp (lookupA exclusions family) = true := by
    unfold is_excluded
    rw [List.any_eq_true]
    exact ⟨r, hr, by simp [h1, h2]⟩
  simp [choose_font, hex]

theorem C1_exclusion_precedence_witness :
    (∃ r ∈ (lookupA [("dialog", [NRange.mk 0x40 0x50])] "dialog").getD [],
        r.start ≤ (0x41 : Int) ∧ (0x41 : Int) ≤ r.end_) ∧
    choose_font [("dialog", [FontEntry.mk 0 "Arial" "ANSI_CHARSET" false none])]
        [("dialog", [NRange.mk 0x40 0x50])]
        (Globals.mk (some 65) (some "ANSI_CHARSET")) "dialog" 0x41 false =
      (Outcome.excluded "dialog" 0x41 (some 65)
        "codepoint is in family exclusion range", []) :=
  ⟨by decide, C1_exclusion_precedence _ _ _ _ _ _ (by decide)⟩

/-- C2: for every canonical model, family, and code point not covered by an
exclusion, the resolver examines the family entries in order; a Symbol entry
matches (returning `Ok`) iff `needs_converted` is true and `converter_class`
is present; a non-matching entry is skipped, and the first matching entry
wins (the outcome is determined by `List.find?`, i.e. no later entry
matters).  Canonical models never carry an empty converter-class string
(empty classes are rejected at parse time), which is the `hwf` hypothesis. -/
theorem C2_symbol_first_match (families : List (String × List FontEntry))
    (exclusions : List (String × List NRange)) (g : Globals)
    (family : String) (cp : Int) (explain : Bool) (entries : List FontEntry)
    (hfam : (lookupA families family).getD [] = entries)
    (hwf : ∀ e ∈ entries, (e.charset = "ANSI_CHARSET" ∨ e.charset = "SYMBOL_CHARSET") ∧
      (e.charset = "SYMBOL_CHARSET" → e.converterClass ≠ some ""))
    (hex : is_excluded cp (lookupA exclusions family) = false) :
    (choose_font families exclusions g family cp explain).1 =
      match entries.find? (entryMatchesSpec cp) with
      | some e => okOutcome family cp e
      | none => Outcome.fallback family cp g.defaultChar "no matching entry" := by
  have h := chooseLoop_fst family g cp entries [] hwf
  rw [← h]
  simp [choose_font, hex, hfam]

theorem C2_symbol_first_match_witness :
    (choose_font
        [("dialog",
          [FontEntry.mk 0 "Sym1" "SYMBOL_CHARSET" false (some "Conv1"),
           FontEntry.mk 1 "Sym2" "SYMBOL_CHARSET" true none,
           FontEntry.mk 2 "Sym3" "SYMBOL_CHARSET" true (some "Conv3"),
           FontEntry.mk 3 "Sym4" "SYMBOL_CHARSET" true (some "Conv4")])]
        [] (Globals.mk (some 65) (some "ANSI_CHARSET")) "dialog" 300 false).1 =
      Outcome.ok "dialog" "Sym3" "SYMBOL_CHARSET" true (some "Conv3") 300 := by
  rw [C2_symbol_first_match _ _ _ _ _ _ _ rfl (by decide) (by decide)]
  decide

/-- C3: a family whose canonical entry list is exactly one ANSI entry at
index 0 resolves to `Ok` with that entry for every code point in
`[0x0000, 0x00FF]` and to `Fallback` carrying the global `default_char`
for every code point strictly greater than `0x00FF` (absent exclusions). -/
theorem C3_single_ansi_family (families : List (String × List FontEntry))
    (exclusions : List (String × List NRange)) (g : Globals)
    (family : String) (cp : Int) (explain : Bool) (e : FontEntry)
    (hfam : lookupA families family = some [e])
    (hcs : e.charset = "ANSI_CHARSET")
    (hidx : e.index = 0)
    (hex : is_excluded cp (lookupA exclusions family) = false) :
    (0 ≤ cp ∧ cp ≤ 0xFF →
      (choose_font families exclusions g family cp explain).1 =
        Outcome.ok family e.font "ANSI_CHARSET" false none cp)
    ∧ (0xFF < cp →
      (choose_font families exclusions g family cp explain).1 =
        Outcome.fallback family cp g.defaultChar "no matching entry") := by
  constructor
  · rintro ⟨h0, h255⟩
    simp [choose_font, hfam, hex, chooseLoop, hcs, h255]
  · intro h
    have h255 : ¬ (cp ≤ 0xFF) := by omega
    simp [choose_font, hfam, hex, chooseLoop, hcs, h255]

theorem C3_single_ansi_family_witness :
    (choose_font [("serif", [FontEntry.mk 0 "Times" "ANSI_CHARSET" false none])]
        [] (Globals.mk (some 65) none) "serif" 0x41 true).1 =
      Outcome.ok "serif" "Times" "ANSI_CHARSET" false none 0x41 ∧
    (choose_font [("serif", [FontEntry.mk 0 "Times" "ANSI_CHARSET" false none])]
        [] (Globals.mk (some 65) none) "serif" 0x100 true).1 =
      Outcome.fallback "serif" 0x100 (some 65) "no matching entry" :=
  ⟨(C3_single_ansi_family
      [("serif", [FontEntry.mk 0 "Times" "ANSI_CHARSET" false none])] []
      (Globals.mk (some 65) none) "serif" 0x41 true
      (FontEntry.mk 0 "Times" "ANSI_CHARSET" false none)
      (by decide) (by decide) (by decide) (by decide)).1 (by decide),
   (C3_single_ansi_family
      [("serif", [FontEntry.mk 0 "Times" "ANSI_CHARSET" false none])] []
      (Globals.mk (some 65) none) "serif" 0x100 true
      (FontEntry.mk 0 "Times" "ANSI_CHARSET" false none)
      (by decide) (by decide) (by decide) (by decide)).2 (by decide)⟩

/-- C5 (counterexample): with `explain = false` the returned trace is not
empty — `choose_font` builds the trace unconditionally, ignoring the
`explain` argument; only the caller decides whether to print it. -/
theorem C5_counterexample :
    (choose_font [("dialog", [FontEntry.mk 0 "Arial" "ANSI_CHARSET" false none])]
        [] (Globals.mk (some 65) (some "ANSI_CHARSET")) "dialog" 65 false).2 ≠ [] := by
  decide

/-- C5 (amended): the trace returned by `choose_font` does not depend on the
`explain` flag at all; it is always produced, empty on the exclusion path,
and otherwise lists exactly the entries examined, in examination order. -/
theorem C5_trace_unconditional (families : List (String × List FontEntry))
    (exclusions : List (String × List NRange)) (g : Globals)
    (family : String) (cp : Int) :
    (∀ e1 e2 : Bool,
      choose_font families exclusions g family cp e1 =
        choose_font families exclusions g family cp e2)
    ∧ (is_excluded cp (lookupA exclusions family) = true →
        (choose_font families exclusions g family cp true).2 = [])
    ∧ (is_excluded cp (lookupA exclusions family) = false →
        (choose_font families exclusions g family cp true).2 =
          ((examinedEntries cp ((lookupA families family).getD [])).map
            (entryTrace cp)).flatten) := by
  refine ⟨fun e1 e2 => rfl, fun hex => ?_, fun hex => ?_⟩
  · simp [choose_font, hex]
  · have h := chooseLoop_snd family g cp ((lookupA families family).getD []) []
    rw [List.nil_append] at h
    rw [← h]
    simp [choose_font, hex]

theorem C5_trace_unconditional_witness :
    (choose_font
        [("dialog",
          [FontEntry.mk 0 "Sym1" "SYMBOL_CHARSET" true none,
           FontEntry.mk 1 "Arial" "ANSI_CHARSET" false none])]
        [] (Globals.mk (some 65) none) "dialog" 65 true).2 =
      ["Check SYMBOL Sym1 (index 0)",
       "  skipped: NEED_CONVERTED or converterClass missing",
       "Check ANSI Arial (index 1)"] := by
  rw [(C5_trace_unconditional _ _ _ _ _).2.2 (by decide)]
  decide

/-- C10: the ANSI coverage test in `choose_font` is only
`codepoint <= 0x00FF`, with no lower bound: a negative code point (not
excluded) resolves `Ok` against a family whose first entry is ANSI. -/
theorem C10_negative_codepoint_ansi (families : List (String × List FontEntry))
    (exclusions : List (String × List NRange)) (g : Globals)
    (family : String) (cp : Int) (explain : Bool)
    (e : FontEntry) (rest : List FontEntry)
    (hfam : lookupA families family = some (e :: rest))
    (hcs : e.charset = "ANSI_CHARSET")
    (hneg : cp < 0)
    (hex : is_excluded cp (lookupA exclusions family) = false) :
    (choose_font families exclusions g family cp explain).1 =
      Outcome.ok family e.font "ANSI_CHARSET" false none cp := by
  have h255 : cp ≤ 0xFF := by omega
  simp [choose_font, hfam, hex, chooseLoop, hcs, h255]

theorem C10_negative_codepoint_ansi_witness :
    (choose_font [("dialog", [FontEntry.mk 0 "Arial" "ANSI_CHARSET" false none])]
        [("dialog", [NRange.mk 0x40 0x50])] (Globals.mk (some 65) none)
        "dialog" (-7) false).1 =
      Outcome.ok "dialog" "Arial" "ANSI_CHARSET" false none (-7) :=
  C10_negative_codepoint_ansi
    [("dialog", [FontEntry.mk 0 "Arial" "ANSI_CHARSET" false none])]
    [("dialog", [NRange.mk 0x40 0x50])] (Globals.mk (some 65) none)
    "dialog" (-7) false (FontEntry.mk 0 "Arial" "ANSI_CHARSET" false none) []
    (by decide) (by decide) (by decide) (by decide)

/-!
### Python string primitives

Modelled structurally on `List Char` so that every definition kernel-reduces
on concrete inputs.  `\s` / `str.strip` whitespace is modelled by
`Char.isWhitespace` (space, tab, CR, LF — the forms that occur in
properties files).
-/

/-- Whitespace test used by `str.strip` and the regex class `\s`. -/
def pyIsSpace (c : Char) : Bool := c.isWhitespace

/-- Model of Python `str.strip()`. -/
def pyStrip (s : String) : String :=
  String.mk (((s.data.dropWhile pyIsSpace).reverse.dropWhile pyIsSpace).reverse)

/-- Model of Python `str.startswith(p)`. -/
def pyStartsWith (s p : String) : Bool := p.data.isPrefixOf s.data

/-- Model of the Python substring test `c in s` for a one-character needle. -/
def pyContainsChar (s : String) (c : Char) : Bool := s.data.contains c

/-- Helper for `split(sep, 1)`: text before and after the first occurrence. -/
def splitFirstGo (c : Char) : List Char → List Char × List Char
  | [] => ([], [])
  | x :: xs =>
    if x = c then ([], xs)
    else
      let p := splitFirstGo c xs
      (x :: p.1, p.2)

/-- Model of Python `s.split(c, 1)` when `c` occurs in `s` (the callers guard
with a containment test first, exactly like the source). -/
def splitFirst (c : Char) (s : String) : String × String :=
  let p := splitFirstGo c s.data
  (String.mk p.1, String.mk p.2)

/-- Helper for full `split(c)`: all fields, empties preserved. -/
def splitAllGo (c : Char) : List Char → List (List Char)
  | [] => [[]]
  | x :: xs =>
    match splitAllGo c xs with
    | [] => [[]]
    | cur :: rest => if x = c then [] :: cur :: rest else (x :: cur) :: rest

/-- Model of Python `s.split(c)` for a one-character separator. -/
def pySplitChar (s : String) (c : Char) : List String :=
  (splitAllGo c s.data).map String.mk

/-- Decimal digit value. -/
def digitVal (c : Char) : Nat := c.toNat - 48

/-- Hexadecimal digit test (`0-9a-fA-F`). -/
def isHexDigitChar (c : Char) : Bool :=
  c.isDigit || (97 ≤ c.toNat && c.toNat ≤ 102) || (65 ≤ c.toNat && c.toNat ≤ 70)

/-- Hexadecimal digit value. -/
def hexVal (c : Char) : Nat :=
  if c.isDigit then c.toNat - 48
  else if c.toNat ≤ 70 then c.toNat - 55
  else c.toNat - 87

/-- Value of a digit run in the given base. -/
def pyIntOfDigits (base : Nat) (toV : Char → Nat) (ds : List Char) : Nat :=
  ds.foldl (fun a c => a * base + toV c) 0

/-- Underscore-grouped digit run as accepted by Python `int`: underscores may
appear only between digits.  Returns the digits with underscores removed.
The head character is checked to be a digit by the caller. -/
def pyDigitGroupGo (isD : Char → Bool) : List Char → Option (List Char)
  | [] => some []
  | [c] => if isD c then some [c] else none
  | c :: d :: rest =>
    if isD c then (pyDigitGroupGo isD (d :: rest)).map (c :: ·)
    else if c = '_' then
      if isD d then pyDigitGroupGo isD (d :: rest) else none
    else none

/-- Digit-run parser shared by `int(s, 10)` and `int(s, 16)`: requires a
leading digit, then an underscore-grouped run. -/
def pyIntCore (isD : Char → Bool) (toV : Char → Nat) (base : Nat)
    (cs : List Char) : Option Nat :=
  match cs with
  | [] => none
  | c :: _ =>
    if isD c then (pyDigitGroupGo isD cs).map (pyIntOfDigits base toV)
    else none

/-- Model of Python `int(s, 10)`: optional surrounding whitespace, optional
sign, then a decimal digit run. -/
def pyInt10 (s : String) : Option Int :=
  match (pyStrip s).data with
  | '+' :: rest => (pyIntCore Char.isDigit digitVal 10 rest).map (fun n => (n : Int))
  | '-' :: rest => (pyIntCore Char.isDigit digitVal 10 rest).map (fun n => -(n : Int))
  | cs => (pyIntCore Char.isDigit digitVal 10 cs).map (fun n => (n : Int))

/-- Hexadecimal body of `int(s, 16)`: an optional `0x` / `0X` prefix (an
underscore may directly follow the prefix), then a hex digit run. -/
def pyHexBody (cs : List Char) : Option Nat :=
  match cs with
  | '0' :: x :: rest =>
    if x = 'x' ∨ x = 'X' then
      match rest with
      | '_' :: rest2 => pyIntCore isHexDigitChar hexVal 16 rest2
      | _ => pyIntCore isHexDigitChar hexVal 16 rest
    else pyIntCore isHexDigitChar hexVal 16 cs
  | _ => pyIntCore isHexDigitChar hexVal 16 cs

/-- Model of Python `int(s, 16)`. -/
def pyInt16 (s : String) : Option Int :=
  match (pyStrip s).data with
  | '+' :: rest => (pyHexBody rest).map (fun n => (n : Int))
  | '-' :: rest => (pyHexBody rest).map (fun n => -(n : Int))
  | cs => (pyHexBody cs).map (fun n => (n : Int))

/-!
### Arithmetic pre-evaluation

The source rewrites arithmetic found in keys (`evaluate_key_arithmetic`,
a regex substitution of parenthesized expressions) and in values
(`evaluate_arithmetic_value`) using Python `eval` restricted to the
character class `[0-9+\-*/.()\s]`.  Within that class the only evaluable
expressions are numeric literals combined with the arithmetic operators
(including `**` and `//`), so `eval` is modelled by an exact-rational
expression interpreter.  Two caveats, both irrelevant to every claim:
values are exact rationals where Python floats round, and a non-integer
result (whose float decimal formatting is not modelled) is left
unsubstituted where Python would substitute the float repr.  Failures
(syntax errors, division by zero, complex results) leave the text
unchanged, exactly as the source's `except` branches do. -/

/-- Exact rational tracked by the `eval` model: numerator and positive
denominator, not necessarily reduced. -/
structure PyNum where
  num : Int
  den : Int
deriving DecidableEq

def pnAdd (a b : PyNum) : PyNum := ⟨a.num * b.den + b.num * a.den, a.den * b.den⟩

def pnSub (a b : PyNum) : PyNum := ⟨a.num * b.den - b.num * a.den, a.den * b.den⟩

def pnMul (a b : PyNum) : PyNum := ⟨a.num * b.num, a.den * b.den⟩

def pnNeg (a : PyNum) : PyNum := ⟨-a.num, a.den⟩

/-- True division; `None` on a zero divisor (Python `ZeroDivisionError`). -/
def pnDiv (a b : PyNum) : Option PyNum :=
  if b.num = 0 then none
  else
    let n := a.num * b.den
    let d := a.den * b.num
    if d < 0 then some ⟨-n, -d⟩ else some ⟨n, d⟩

/-- Floor division `//`. -/
def pnFloorDiv (a b : PyNum) : Option PyNum :=
  (pnDiv a b).map (fun q => ⟨Int.fdiv q.num q.den, 1⟩)

/-- Power `**`: defined for integer exponents (a fractional exponent gives a
float or complex power Python-side; the expression is then either
substituted with an unmodelled float repr or left alone — the model maps it
to `none`, i.e. no substitution).  `0 ** negative` raises. -/
def pnPow (a b : PyNum) : Option PyNum :=
  if b.den ∣ b.num then
    let e := b.num / b.den
    if 0 ≤ e then some ⟨a.num ^ e.toNat, a.den ^ e.toNat⟩
    else if a.num = 0 then none
    else
      let m := (-e).toNat
      let n := a.den ^ m
      let d := a.num ^ m
      if d < 0 then some ⟨-n, -d⟩ else some ⟨n, d⟩
  else none

/-- Tokens of the restricted arithmetic grammar. -/
inductive ATok where
  | num (v : PyNum)
  | plus
  | minus
  | star
  | slash
  | dstar
  | dslash
  | lpar
  | rpar
deriving DecidableEq

/-- Numeric literal: a run of digits and dots.  Python rejects non-zero
integer literals with a leading zero (`05` is a syntax error, `00` is not);
float literals allow leading zeros and an empty side of the dot. -/
def numLit (ds : List Char) : Option PyNum :=
  if ds.count '.' = 0 then
    match ds with
    | [] => none
    | d :: rest =>
      if d = '0' ∧ ¬ rest.all (fun c => c = '0') then none
      else some ⟨(pyIntOfDigits 10 digitVal ds : Nat), 1⟩
  else if ds.count '.' = 1 then
    let ip := ds.takeWhile (fun c => c ≠ '.')
    let fp := (ds.dropWhile (fun c => c ≠ '.')).tail
    if ip = [] ∧ fp = [] then none
    else some ⟨(pyIntOfDigits 10 digitVal (ip ++ fp) : Nat), (10 : Int) ^ fp.length⟩
  else none

/-- Tokenizer for the arithmetic class. -/
def tokenizeGo : Nat → List Char → Option (List ATok)
  | 0, _ => none
  | _, [] => some []
  | fuel + 1, c :: cs =>
    if pyIsSpace c then tokenizeGo fuel cs
    else if c = '+' then (tokenizeGo fuel cs).map (ATok.plus :: ·)
    else if c = '-' then (tokenizeGo fuel cs).map (ATok.minus :: ·)
    else if c = '*' then
      match cs with
      | '*' :: cs2 => (tokenizeGo fuel cs2).map (ATok.dstar :: ·)
      | _ => (tokenizeGo fuel cs).map (ATok.star :: ·)
    else if c = '/' then
      match cs with
      | '/' :: cs2 => (tokenizeGo fuel cs2).map (ATok.dslash :: ·)
      | _ => (tokenizeGo fuel cs).map (ATok.slash :: ·)
    else if c = '(' then (tokenizeGo fuel cs).map (ATok.lpar :: ·)
    else if c = ')' then (tokenizeGo fuel cs).map (ATok.rpar :: ·)
    else if c.isDigit ∨ c = '.' then
      let run := (c :: cs).takeWhile (fun x => x.isDigit || x = '.')
      match numLit run with
      | some v => (tokenizeGo fuel ((c :: cs).drop run.length)).map (ATok.num v :: ·)
      | none => none
    else none

mutual

/-- Expression: `term {(+|-) term}`. -/
def parseE : Nat → List ATok → Option (PyNum × List ATok)
  | 0, _ => none
  | fuel + 1, ts =>
    match parseT fuel ts with
    | none => none
    | some (v, ts2) => parseEsfx fuel v ts2

/-- Left-recursive tail of an expression. -/
def parseEsfx : Nat → PyNum → List ATok → Option (PyNum × List ATok)
  | 0, _, _ => none
  | fuel + 1, v, ATok.plus :: ts =>
    match parseT fuel ts with
    | none => none
    | some (w, ts2) => parseEsfx fuel (pnAdd v w) ts2
  | fuel + 1, v, ATok.minus :: ts =>
    match parseT fuel ts with
    | none => none
    | some (w, ts2) => parseEsfx fuel (pnSub v w) ts2
  | _ + 1, v, ts => some (v, ts)

/-- Term: `unary {(*|/|//) unary}`. -/
def parseT : Nat → List ATok → Option (PyNum × List ATok)
  | 0, _ => none
  | fuel + 1, ts =>
    match parseU fuel ts with
    | none => none
    | some (v, ts2) => parseTsfx fuel v ts2

/-- Left-recursive tail of a term. -/
def parseTsfx : Nat → PyNum → List ATok → Option (PyNum × List ATok)
  | 0, _, _ => none
  | fuel + 1, v, ATok.star :: ts =>
    match parseU fuel ts with
    | none => none
    | some (w, ts2) => parseTsfx fuel (pnMul v w) ts2
  | fuel + 1, v, ATok.slash :: ts =>
    match parseU fuel ts with
    | none => none
    | some (w, ts2) =>
      match pnDiv v w with
      | none => none
      | some x => parseTsfx fuel x ts2
  | fuel + 1, v, ATok.dslash :: ts =>
    match parseU fuel ts with
    | none => none
    | some (w, ts2) =>
      match pnFloorDiv v w with
      | none => none
      | some x => parseTsfx fuel x ts2
  | _ + 1, v, ts => some (v, ts)

/-- Unary: `(+|-)* power` (Python `u_expr`). -/
def parseU : Nat → List ATok → Option (PyNum × List ATok)
  | 0, _ => none
  | fuel + 1, ATok.plus :: ts => parseU fuel ts
  | fuel + 1, ATok.minus :: ts => (parseU fuel ts).map (fun p => (pnNeg p.1, p.2))
  | fuel + 1, ts => parseP fuel ts

/-- Power: `primary ['**' unary]` (right-associative, binds above unary). -/
def parseP : Nat → List ATok → Option (PyNum × List ATok)
  | 0, _ => none
  | fuel + 1, ts =>
    match parsePrim fuel ts with
    | none => none
    | some (v, ATok.dstar :: ts2) =>
      match parseU fuel ts2 with
      | none => none
      | some (w, ts3) =>
        match pnPow v w with
        | none => none
        | some x => some (x, ts3)
    | some (v, ts2) => some (v, ts2)

/-- Primary: a literal or a parenthesized expression. -/
def parsePrim : Nat → List ATok → Option (PyNum × List ATok)
  | 0, _ => none
  | _ + 1, ATok.num v :: ts => some (v, ts)
  | fuel + 1, ATok.lpar :: ts =>
    match parseE fuel ts with
    | some (v, ATok.rpar :: ts2) => some (v, ts2)
    | _ => none
  | _ + 1, _ => none

end

/-- Model of restricted `eval`: tokenize, parse a full expression, require
all input consumed. -/
def pyEvalStr (s : String) : Option PyNum :=
  match tokenizeGo (s.data.length + 1) s.data with
  | none => none
  | some ts =>
    match parseE (8 * (ts.length + 1)) ts with
    | some (v, []) => some v
    | _ => none

/-- The operator class of `re.search(r"[+\-*/]", value)`. -/
def opChars : List Char := ['+', '-', '*', '/']

/-- The character class `[0-9+\-*/.()\s]` shared by both arithmetic rewrites. -/
def arithClassChar (c : Char) : Bool :=
  c.isDigit || opChars.contains c || c = '.' || c = '(' || c = ')' || pyIsSpace c

/-- Model of `evaluate_arithmetic_value(value)`: if the value contains an
arithmetic operator and, stripped, is a non-empty run of class characters,
evaluate it; an integer-valued result replaces the value with its decimal
string, any failure leaves the value unchanged (see the section comment for
the non-integer-float caveat). -/
def evaluate_arithmetic_value (value : String) : String :=
  if ¬ value.data.any (fun c => opChars.contains c) then value
  else
    let t := pyStrip value
    if t.data = [] ∨ ¬ t.data.all arithClassChar then value
    else
      match pyEvalStr t with
      | some q => if q.den ∣ q.num then toString (q.num / q.den) else value
      | none => value

/-- Replacement text for one match of the key-arithmetic pattern
`\(([0-9+\-*/.()\s]+)\)`: the decimal string of an integer-valued result,
otherwise the whole match unchanged. -/
def ekaReplacement (group : List Char) : List Char :=
  match pyEvalStr (String.mk group) with
  | some q =>
    if q.den ∣ q.num then (toString (q.num / q.den)).data
    else '(' :: (group ++ [')'])
  | none => '(' :: (group ++ [')'])

/-- Regex match attempt at an opening parenthesis: greedily take the run of
class characters after it, then backtrack to the last closing parenthesis at
offset at least 1.  Returns the group and the rest of the text after the
match. -/
def ekaMatchAt (cs : List Char) : Option (List Char × List Char) :=
  let run := cs.takeWhile arithClassChar
  match ((List.range run.length).filter
      (fun j => 1 ≤ j ∧ run.get? j = some ')')).getLast? with
  | none => none
  | some j => some (run.take j, cs.drop (j + 1))

/-- Left-to-right scan of `re.sub`: try a match at every `(`, replace and
continue after the match, otherwise move one character forward. -/
def ekaScan : Nat → List Char → List Char
  | 0, cs => cs
  | _, [] => []
  | fuel + 1, c :: cs =>
    if c = '(' then
      match ekaMatchAt cs with
      | some (group, rest) => ekaReplacement group ++ ekaScan fuel rest
      | none => c :: ekaScan fuel cs
    else c :: ekaScan fuel cs

/-- Model of `evaluate_key_arithmetic(text)`. -/
def evaluate_key_arithmetic (text : String) : String :=
  String.mk (ekaScan (text.data.length + 1) text.data)

/-!
### Line parser and semantic validator (`parse_properties`)
-/

/-- The recognized charsets (`CHARSETS`), listed in the sorted order used by
diagnostics. -/
def CHARSETS : List String := ["ANSI_CHARSET", "SYMBOL_CHARSET"]

/-- The recognized flags (`FLAGS`). -/
def FLAGS : List String := ["NEED_CONVERTED"]

/-- Python `str(sorted(...))` rendering of a list of strings. -/
def pyStrList (l : List String) : String :=
  "[" ++ String.intercalate ", " (l.map (fun s => pySq ++ s ++ pySq)) ++ "]"

/-- Python `str(...)` rendering of a list of integers. -/
def pyNatList (l : List Nat) : String :=
  "[" ++ String.intercalate ", " (l.map toString) ++ "]"

/-- Parsed font-definition record (the values of `font_defs`). -/
structure FontDefRec where
  family : String
  index : Nat
  font : String
  charset : String
  needsConverted : Bool
  line : Nat
deriving DecidableEq

/-- Parsed fontcharset record (the values of `fontcharset`). -/
structure FCRec where
  cls : String
  line : Nat
deriving DecidableEq

/-- Parsed exclusion range with its source line. -/
structure ExRec where
  start : Int
  end_ : Int
  line : Nat
deriving DecidableEq

/-- Parser state threaded line by line through `parse_properties`. -/
structure PState where
  errors : List String
  warnings : List String
  font_defs : List ((String × Nat) × FontDefRec)
  fontcharset : List ((String × Nat) × FCRec)
  exclusions : List (String × List ExRec)
  defaultChar : Option Int
  inputTextCharset : Option String
  seen_keys : List String
deriving DecidableEq

/-- The empty starting state. -/
def initState : PState := ⟨[], [], [], [], [], none, none, []⟩

/-- Diagnostic prefix `Line <n>: <msg>` shared by `err` and `warn`. -/
def errMsg (ln : Nat) (msg : String) : String :=
  "Line " ++ toString ln ++ ": " ++ msg

/-- The nested `err` helper: append one error. -/
def addErr (st : PState) (ln : Nat) (msg : String) : PState :=
  { st with errors := st.errors ++ [errMsg ln msg] }

/-- The nested `warn` helper: append one warning. -/
def addWarn (st : PState) (ln : Nat) (msg : String) : PState :=
  { st with warnings := st.warnings ++ [errMsg ln msg] }

/-- Characters allowed after the leading letter of a family name
(the regex class `[\w-]`). -/
def isWordDashChar (c : Char) : Bool := c.isAlphanum || c = '_' || c = '-'

/-- The family token `[A-Za-z][\w-]*` of the three key regexes. -/
def matchFamily (s : String) : Bool :=
  match s.data with
  | [] => false
  | c :: rest => c.isAlpha && rest.all isWordDashChar

/-- The index token `(\d+)`, with its numeric value (`int(m.group(2))`). -/
def matchIndex (s : String) : Option Nat :=
  match s.data with
  | [] => none
  | cs => if cs.all Char.isDigit then some (pyIntOfDigits 10 digitVal cs) else none

/-- Match of `familydef_re` (`^([A-Za-z][\w-]*)\.(\d+)$`): the family part
cannot contain a dot, so the key must split into exactly two components. -/
def familydef_match (key : String) : Option (String × Nat) :=
  match pySplitChar key '.' with
  | [fam, idx] =>
    if matchFamily fam then (matchIndex idx).map (fun i => (fam, i)) else none
  | _ => none

/-- Match of `fontcharset_re` (`^fontcharset\.([A-Za-z][\w-]*)\.(\d+)$`). -/
def fontcharset_match (key : String) : Option (String × Nat) :=
  match pySplitChar key '.' with
  | [p, fam, idx] =>
    if p = "fontcharset" ∧ matchFamily fam then (matchIndex idx).map (fun i => (fam, i))
    else none
  | _ => none

/-- Match of `exclusion_re` (`^exclusion\.([A-Za-z][\w-]*)\.(\d+)$`). -/
def exclusion_match (key : String) : Option (String × Nat) :=
  match pySplitChar key '.' with
  | [p, fam, idx] =>
    if p = "exclusion" ∧ matchFamily fam then (matchIndex idx).map (fun i => (fam, i))
    else none
  | _ => none

/-- Python dict assignment `m[k] = v`: replace in place, else append. -/
def upsertA {α β : Type} [DecidableEq α] : List (α × β) → α → β → List (α × β)
  | [], k, v => [(k, v)]
  | p :: rest, k, v => if p.1 = k then (k, v) :: rest else p :: upsertA rest k v

/-- `defaultdict(list)` append `m[k].append(r)`. -/
def exAppend : List (String × List ExRec) → String → ExRec → List (String × List ExRec)
  | [], fam, r => [(fam, [r])]
  | p :: rest, fam, r =>
    if p.1 = fam then (p.1, p.2 ++ [r]) :: rest else p :: exAppend rest fam r

/-- The `default.char` branch of `parse_properties`. -/
def processDefaultChar (st : PState) (ln : Nat) (value : String) : PState :=
  if value = "" then addErr st ln "default.char value is empty"
  else
    match pyInt10 value with
    | none => addErr st ln ("default.char must be an integer, got: " ++ value)
    | some v =>
      if ¬ (0 ≤ v ∧ v ≤ 0x10FFFF) then
        addErr st ln ("default.char out of range 0..0x10FFFF: " ++ toString v)
      else { st with defaultChar := some v }

/-- The `inputtextcharset` branch. -/
def processInputTextCharset (st : PState) (ln : Nat) (value : String) : PState :=
  if ¬ value ∈ CHARSETS then
    addErr st ln ("inputtextcharset must be one of " ++ pyStrList CHARSETS ++
      ", got: " ++ value)
  else { st with inputTextCharset := some value }

/-- The `fontcharset.<family>.<index>` branch. -/
def processFontcharset (st : PState) (ln : Nat) (family : String) (idx : Nat)
    (value : String) : PState :=
  if value = "" then
    addErr st ln ("fontcharset." ++ family ++ "." ++ toString idx ++
      " has empty class name")
  else { st with fontcharset := upsertA st.fontcharset (family, idx) ⟨value, ln⟩ }

/-- The `exclusion.<family>.<index>` branch.  (The parsed index is unused by
the source: exclusions are keyed by family alone.) -/
def processExclusion (st : PState) (ln : Nat) (family : String) (idx : Nat)
    (value : String) : PState :=
  if ¬ pyContainsChar value '-' then
    addErr st ln ("exclusion range must be start-end hex, got: " ++ value)
  else
    let p := splitFirst '-' value
    match pyInt16 (pyStrip p.1), pyInt16 (pyStrip p.2) with
    | some s_val, some e_val =>
      if ¬ (0 ≤ s_val ∧ s_val ≤ e_val ∧ e_val ≤ 0xFFFF) then
        addErr st ln
          ("exclusion range must satisfy 0x0000 <= start <= end <= 0xFFFF, got: " ++ value)
      else { st with exclusions := exAppend st.exclusions family ⟨s_val, e_val, ln⟩ }
    | _, _ => addErr st ln ("exclusion range parts must be hex, got: " ++ value)

/-- One iteration of the flag-validation loop of the FontDefinition branch. -/
def processFlagErr (ln : Nat) (family : String) (idx : Nat) (s : PState)
    (fl : String) : PState :=
  if ¬ fl ∈ FLAGS then
    addErr s ln ("Unknown flag " ++ pySq ++ fl ++ pySq ++ " in " ++ family ++ "." ++
      toString idx ++ " (allowed: " ++ pyStrList FLAGS ++ ")")
  else s

/-- The `<family>.<index>=FontName,CHARSET[,NEED_CONVERTED]` branch. -/
def processFamilyDef (st : PState) (ln : Nat) (family : String) (idx : Nat)
    (value : String) : PState :=
  let parts := ((pySplitChar value ',').map pyStrip).filter (fun p => p ≠ "")
  match parts with
  | [] => addErr st ln ("FontDefinition requires at least FontName,CHARSET; got: " ++ value)
  | [_] => addErr st ln ("FontDefinition requires at least FontName,CHARSET; got: " ++ value)
  | font_name :: charset :: flags =>
    let st := flags.foldl (processFlagErr ln family idx) st
    let st := if ¬ charset ∈ CHARSETS then
        addErr st ln ("Unknown charset " ++ pySq ++ charset ++ pySq ++ " in " ++ family ++
          "." ++ toString idx ++ " (allowed: " ++ pyStrList CHARSETS ++ ")")
      else st
    match lookupA st.font_defs (family, idx) with
    | some prev =>
      addErr st ln ("Duplicate FontDefinition for " ++ family ++ "." ++ toString idx ++
        " (previous at line " ++ toString prev.line ++ ")")
    | none =>
      { st with font_defs := st.font_defs ++
          [((family, idx), ⟨family, idx, font_name, charset,
            flags.contains "NEED_CONVERTED", ln⟩)] }

/-- Dispatch over the five statement shapes, tried in source order:
`default.char`, `inputtextcharset`, `fontcharset_re`, `exclusion_re`,
`familydef_re`, otherwise an unknown-key error. -/
def dispatchKey (st : PState) (ln : Nat) (key value : String) : PState :=
  if key = "default.char" then processDefaultChar st ln value
  else if key = "inputtextcharset" then processInputTextCharset st ln value
  else
    match fontcharset_match key with
    | some p => processFontcharset st ln p.1 p.2 value
    | none =>
      match exclusion_match key with
      | some p => processExclusion st ln p.1 p.2 value
      | none =>
        match familydef_match key with
        | some p => processFamilyDef st ln p.1 p.2 value
        | none => addErr st ln ("Unknown key: " ++ key)

/-- Everything after key/value extraction: the duplicate-key check, the
`seen_keys` set insertion, and the shape dispatch. -/
def processKeyValue (st : PState) (ln : Nat) (key value : String) : PState :=
  let st1 := if key ∈ st.seen_keys ∧ ¬ pyStartsWith key "exclusion." then
      addErr st ln ("Duplicate key: " ++ key)
    else st
  let st2 := { st1 with seen_keys :=
      if key ∈ st1.seen_keys then st1.seen_keys else st1.seen_keys ++ [key] }
  dispatchKey st2 ln key value

/-- One iteration of the `for ln, raw in lines` loop of `parse_properties`:
strip, skip blanks and comments, rewrite key arithmetic, require `=`,
split once, strip both sides, rewrite value arithmetic, and dispatch. -/
def processLine (st : PState) (ln : Nat) (raw : String) : PState :=
  let line := pyStrip raw
  if line = "" ∨ pyStartsWith line "#" then st
  else
    let line1 := evaluate_key_arithmetic line
    if ¬ pyContainsChar line1 '=' then
      addErr st ln ("Expected key=value, found: " ++ line1)
    else
      let kv := splitFirst '=' line1
      processKeyValue st ln (pyStrip kv.1) (evaluate_arithmetic_value (pyStrip kv.2))

/-- The key a raw line contributes, when it reaches key/value extraction:
the stages of `processLine` before `processKeyValue`. -/
def lineKey (raw : String) : Option String :=
  let line := pyStrip raw
  if line = "" ∨ pyStartsWith line "#" then none
  else
    let line1 := evaluate_key_arithmetic line
    if ¬ pyContainsChar line1 '=' then none
    else some (pyStrip (splitFirst '=' line1).1)

/-- The line loop of `parse_properties` (`enumerate(f, start=1)`). -/
def parseLines (st : PState) (n : Nat) : List String → PState
  | [] => st
  | l :: ls => parseLines (processLine st n l) (n + 1) ls

/-- Grouping of `font_defs` indices by family (`by_family`), in insertion
order, the index taken from the dict key exactly as in the source. -/
def byFamAdd : List (String × List Nat) → String → Nat → List (String × List Nat)
  | [], fam, i => [(fam, [i])]
  | p :: rest, fam, i =>
    if p.1 = fam then (p.1, p.2 ++ [i]) :: rest else p :: byFamAdd rest fam i

/-- The `by_family` defaultdict of the contiguity pass. -/
def by_family (fds : List ((String × Nat) × FontDefRec)) : List (String × List Nat) :=
  fds.foldl (fun acc p => byFamAdd acc p.1.1 p.1.2) []

/-- Python `sorted(set(idxs))`. -/
def pySortedSet (l : List Nat) : List Nat := l.dedup.insertionSort (· ≤ ·)

/-- The per-family contiguity check of `parse_properties` (its lines
computing `s`, `expected`, the start-at-0 error and the `missing` error). -/
def contiguityErrors (fam : String) (idxs : List Nat) : List String :=
  match pySortedSet idxs with
  | [] => []
  | s0 :: srest =>
    let s := s0 :: srest
    let lastv := s.getLast (List.cons_ne_nil s0 srest)
    let expected := List.range' s0 (lastv + 1 - s0)
    let startErrs :=
      if s0 ≠ 0 then
        ["Family " ++ pySq ++ fam ++ pySq ++ ": indices must start at 0, found " ++
          toString s0]
      else []
    let missing := expected.filter (fun i => ¬ i ∈ s)
    startErrs ++
      (if missing ≠ [] then
        ["Family " ++ pySq ++ fam ++ pySq ++ ": indices not contiguous, missing " ++
          pyNatList missing]
      else [])

/-- One item of the `NEED_CONVERTED` / `SYMBOL_CHARSET` coupling pass. -/
def needConvStep (fcs : List ((String × Nat) × FCRec)) (s : PState)
    (p : (String × Nat) × FontDefRec) : PState :=
  let fam := p.1.1
  let idx := p.1.2
  let r := p.2
  let s := if r.needsConverted ∧ r.charset ≠ "SYMBOL_CHARSET" then
      addErr s r.line ("NEED_CONVERTED used with non-symbol charset in " ++ fam ++
        "." ++ toString idx)
    else s
  let s := if r.charset = "SYMBOL_CHARSET" ∧ r.needsConverted ∧
        lookupA fcs (fam, idx) = none then
      addErr s r.line ("Missing fontcharset." ++ fam ++ "." ++ toString idx ++
        " for SYMBOL_CHARSET with NEED_CONVERTED")
    else s
  match lookupA fcs (fam, idx) with
  | some fc =>
    if ¬ r.needsConverted ∧ r.charset = "SYMBOL_CHARSET" then
      addWarn s fc.line ("fontcharset." ++ fam ++ "." ++ toString idx ++
        " present but NEED_CONVERTED not set in " ++ fam ++ "." ++ toString idx)
    else s
  | none => s

/-- The `NEED_CONVERTED` / `SYMBOL_CHARSET` coupling checks. -/
def needConvertedChecks (fds : List ((String × Nat) × FontDefRec))
    (fcs : List ((String × Nat) × FCRec)) (st : PState) : PState :=
  fds.foldl (needConvStep fcs) st

/-- One item of the dangling-fontcharset pass. -/
def danglingStep (fds : List ((String × Nat) × FontDefRec)) (s : PState)
    (p : (String × Nat) × FCRec) : PState :=
  if lookupA fds p.1 = none then
    addWarn s p.2.line ("fontcharset." ++ p.1.1 ++ "." ++ toString p.1.2 ++
      " has no matching FontDefinition; it will be ignored")
  else s

/-- Warnings for fontcharset entries without a matching FontDefinition. -/
def danglingChecks (fds : List ((String × Nat) × FontDefRec))
    (fcs : List ((String × Nat) × FCRec)) (st : PState) : PState :=
  fcs.foldl (danglingStep fds) st

/-- One family of the contiguity pass: append its contiguity errors. -/
def contiguityStep (s : PState) (p : String × List Nat) : PState :=
  { s with errors := s.errors ++ contiguityErrors p.1 p.2 }

/-- The required-globals checks of `parse_properties`. -/
def globalsChecks (st : PState) : PState :=
  let st1 := if st.defaultChar = none then
      { st with errors := st.errors ++ ["Global: default.char is missing"] }
    else st
  if st1.inputTextCharset = none then
    { st1 with errors := st1.errors ++ ["Global: inputtextcharset is missing"] }
  else st1

/-- The post-loop semantic checks of `parse_properties`: required globals,
index contiguity, charset/flag coupling, dangling fontcharset entries. -/
def semanticChecks (st : PState) : PState :=
  let st2 := globalsChecks st
  let st3 := (by_family st2.font_defs).foldl contiguityStep st2
  let st4 := needConvertedChecks st3.font_defs st3.fontcharset st3
  danglingChecks st4.font_defs st4.fontcharset st4

/-- Model of `parse_properties`, over the file's lines. -/
def parse_properties (lines : List String) : PState :=
  semanticChecks (parseLines initState 1 lines)

/-!
### Normalizer (`build_normalized`)
-/

/-- `fam_to_entries` defaultdict append. -/
def famGroupAdd : List (String × List FontDefRec) → String → FontDefRec →
    List (String × List FontDefRec)
  | [], fam, r => [(fam, [r])]
  | p :: rest, fam, r =>
    if p.1 = fam then (p.1, p.2 ++ [r]) :: rest else p :: famGroupAdd rest fam r

/-- Sort key of `sorted(entries, key=lambda r: r["index"])`. -/
def fdIdxLe (a b : FontDefRec) : Prop := a.index ≤ b.index

instance : DecidableRel fdIdxLe := fun a b => Nat.decLe a.index b.index

/-- The families half of `build_normalized`: group by family in insertion
order, sort each family ascending by index, and attach the converter class
only for SYMBOL entries (absent fontcharset gives `None`). -/
def build_families (fds : List ((String × Nat) × FontDefRec))
    (fcs : List ((String × Nat) × FCRec)) : List (String × List FontEntry) :=
  (fds.foldl (fun acc p => famGroupAdd acc p.1.1 p.2) []).map (fun p =>
    (p.1, (p.2.insertionSort fdIdxLe).map (fun r =>
      FontEntry.mk r.index r.font r.charset r.needsConverted
        (if r.charset = "SYMBOL_CHARSET" then (lookupA fcs (p.1, r.index)).map FCRec.cls
         else none))))

/-- Sort key of `sorted(ranges, key=lambda x: (x["start"], x["end"]))`:
lexicographic order on `(start, end)`. -/
def rangeLe (a b : NRange) : Prop :=
  a.start < b.start ∨ (a.start = b.start ∧ a.end_ ≤ b.end_)

instance : DecidableRel rangeLe := fun a b => by
  unfold rangeLe
  infer_instance

/-- The seen-set dedupe loop of `build_normalized`: keep the first occurrence
of each exact `(start, end)` pair. -/
def dedupeKeepFirst : List NRange → List NRange → List NRange
  | _, [] => []
  | seen, r :: rs =>
    if r ∈ seen then dedupeKeepFirst seen rs
    else r :: dedupeKeepFirst (r :: seen) rs

/-- The exclusions half of `build_normalized`: skip empty range lists, sort
by `(start, end)`, dedupe by exact equality (the `line` field is dropped in
the output, so sorting before or after dropping it is equivalent). -/
def normalizeExclusions (exl : List (String × List ExRec)) :
    List (String × List NRange) :=
  exl.filterMap (fun p =>
    if p.2 = [] then none
    else some (p.1, dedupeKeepFirst []
      ((p.2.map (fun r => NRange.mk r.start r.end_)).insertionSort rangeLe)))

/-- Model of `build_normalized(font_defs, fontcharset, exclusions, globals_)`. -/
def build_normalized (fds : List ((String × Nat) × FontDefRec))
    (fcs : List ((String × Nat) × FCRec)) (exl : List (String × List ExRec))
    (g : Globals) :
    List (String × List FontEntry) × List (String × List NRange) × Globals :=
  (build_families fds fcs, normalizeExclusions exl, g)

/-!
### Structural lemmas about the line parser

Every state update appends to `errors` and `warnings` and never removes a
seen key; these lemmas make that precise, branch by branch.
-/

theorem errors_addErr (st : PState) (ln : Nat) (m : String) :
    (addErr st ln m).errors = st.errors ++ [errMsg ln m] := rfl

theorem errors_foldl_append {α : Type} (f : PState → α → PState)
    (hf : ∀ s a, ∃ l, (f s a).errors = s.errors ++ l) :
    ∀ (xs : List α) (st : PState), ∃ l, (xs.foldl f st).errors = st.errors ++ l
  | [], st => ⟨[], by simp⟩
  | x :: xs, st => by
    obtain ⟨l1, h1⟩ := hf st x
    obtain ⟨l2, h2⟩ := errors_foldl_append f hf xs (f st x)
    exact ⟨l1 ++ l2, by rw [List.foldl_cons, h2, h1, List.append_assoc]⟩

theorem errors_append_processDefaultChar (st : PState) (ln : Nat) (value : String) :
    ∃ l, (processDefaultChar st ln value).errors = st.errors ++ l := by
  unfold processDefaultChar
  split
  · exact ⟨_, rfl⟩
  · split
    · exact ⟨_, rfl⟩
    · split
      · exact ⟨_, rfl⟩
      · exact ⟨[], by simp⟩

theorem errors_append_processInputTextCharset (st : PState) (ln : Nat) (value : String) :
    ∃ l, (processInputTextCharset st ln value).errors = st.errors ++ l := by
  unfold processInputTextCharset
  split
  · exact ⟨_, rfl⟩
  · exact ⟨[], by simp⟩

theorem errors_append_processFontcharset (st : PState) (ln : Nat)
    (family : String) (idx : Nat) (value : String) :
    ∃ l, (processFontcharset st ln family idx value).errors = st.errors ++ l := by
  unfold processFontcharset
  split
  · exact ⟨_, rfl⟩
  · exact ⟨[], by simp⟩

theorem errors_append_processExclusion (st : PState) (ln : Nat)
    (family : String) (idx : Nat) (value : String) :
    ∃ l, (processExclusion st ln family idx value).errors = st.errors ++ l := by
  unfold processExclusion
  dsimp only
  split
  · exact ⟨_, rfl⟩
  · split
    · split
      · exact ⟨_, rfl⟩
      · exact ⟨[], by simp⟩
    · exact ⟨_, rfl⟩

theorem exists_suffix_trans {e1 e2 e3 : List String}
    (h1 : ∃ l, e2 = e1 ++ l) (h2 : ∃ l, e3 = e2 ++ l) : ∃ l, e3 = e1 ++ l := by
  obtain ⟨l1, h1⟩ := h1
  obtain ⟨l2, h2⟩ := h2
  exact ⟨l1 ++ l2, by rw [h2, h1, List.append_assoc]⟩

theorem errors_append_processFlagErr (ln : Nat) (family : String) (idx : Nat)
    (s : PState) (fl : String) :
    ∃ l, (processFlagErr ln family idx s fl).errors = s.errors ++ l := by
  unfold processFlagErr
  split
  · exact ⟨_, rfl⟩
  · exact ⟨[], by simp⟩

theorem errors_append_processFamilyDef (st : PState) (ln : Nat)
    (family : String) (idx : Nat) (value : String) :
    ∃ l, (processFamilyDef st ln family idx value).errors = st.errors ++ l := by
  unfold processFamilyDef
  dsimp only
  split
  · exact ⟨_, rfl⟩
  · exact ⟨_, rfl⟩
  next font_name charset flags hparts =>
    have hA := errors_foldl_append (processFlagErr ln family idx)
      (errors_append_processFlagErr ln family idx) flags st
    by_cases hcs : ¬ charset ∈ CHARSETS
    · simp only [if_pos hcs]
      split
      · exact exists_suffix_trans
          (exists_suffix_trans hA ⟨_, errors_addErr _ _ _⟩) ⟨_, errors_addErr _ _ _⟩
      · exact exists_suffix_trans hA ⟨_, errors_addErr _ _ _⟩
    · simp only [if_neg hcs]
      split
      · exact exists_suffix_trans hA ⟨_, errors_addErr _ _ _⟩
      · exact exists_suffix_trans hA ⟨[], by simp⟩

theorem errors_append_dispatchKey (st : PState) (ln : Nat) (k v : String) :
    ∃ l, (dispatchKey st ln k v).errors = st.errors ++ l := by
  unfold dispatchKey
  split
  · exact errors_append_processDefaultChar st ln v
  · split
    · exact errors_append_processInputTextCharset st ln v
    · split
      · exact errors_append_processFontcharset st ln _ _ v
      · split
        · exact errors_append_processExclusion st ln _ _ v
        · split
          · exact errors_append_processFamilyDef st ln _ _ v
          · exact ⟨_, rfl⟩

theorem seen_foldl {α : Type} (f : PState → α → PState)
    (hf : ∀ s a, (f s a).seen_keys = s.seen_keys) :
    ∀ (xs : List α) (st : PState), (xs.foldl f st).seen_keys = st.seen_keys
  | [], _ => rfl
  | x :: xs, st => by rw [List.foldl_cons, seen_foldl f hf xs (f st x), hf]

theorem seen_processDefaultChar (st : PState) (ln : Nat) (value : String) :
    (processDefaultChar st ln value).seen_keys = st.seen_keys := by
  unfold processDefaultChar addErr
  split
  · rfl
  · split
    · rfl
    · split <;> rfl

theorem seen_processInputTextCharset (st : PState) (ln : Nat) (value : String) :
    (processInputTextCharset st ln value).seen_keys = st.seen_keys := by
  unfold processInputTextCharset addErr
  split <;> rfl

theorem seen_processFontcharset (st : PState) (ln : Nat) (family : String)
    (idx : Nat) (value : String) :
    (processFontcharset st ln family idx value).seen_keys = st.seen_keys := by
  unfold processFontcharset addErr
  split <;> rfl

theorem seen_processExclusion (st : PState) (ln : Nat) (family : String)
    (idx : Nat) (value : String) :
    (processExclusion st ln family idx value).seen_keys = st.seen_keys := by
  unfold processExclusion addErr
  dsimp only
  split
  · rfl
  · split
    · split <;> rfl
    · rfl

theorem seen_processFlagErr (ln : Nat) (family : String) (idx : Nat)
    (s : PState) (fl : String) :
    (processFlagErr ln family idx s fl).seen_keys = s.seen_keys := by
  unfold processFlagErr addErr
  split <;> rfl

theorem seen_processFamilyDef (st : PState) (ln : Nat) (family : String)
    (idx : Nat) (value : String) :
    (processFamilyDef st ln family idx value).seen_keys = st.seen_keys := by
  unfold processFamilyDef
  dsimp only
  split
  · rfl
  · rfl
  next font_name charset flags hparts =>
    have hA := seen_foldl (processFlagErr ln family idx)
      (seen_processFlagErr ln family idx) flags st
    by_cases hcs : ¬ charset ∈ CHARSETS
    · simp only [if_pos hcs]
      split
      · simp [addErr, hA]
      · simp [addErr, hA]
    · simp only [if_neg hcs]
      split
      · simp [addErr, hA]
      · simp [hA]

theorem seen_dispatchKey (st : PState) (ln : Nat) (k v : String) :
    (dispatchKey st ln k v).seen_keys = st.seen_keys := by
  unfold dispatchKey
  split
  · exact seen_processDefaultChar st ln v
  · split
    · exact seen_processInputTextCharset st ln v
    · split
      · exact seen_processFontcharset st ln _ _ v
      · split
        · exact seen_processExclusion st ln _ _ v
        · split
          · exact seen_processFamilyDef st ln _ _ v
          · rfl

theorem seen_processKeyValue (st : PState) (ln : Nat) (k v : String) :
    (processKeyValue st ln k v).seen_keys =
      if k ∈ st.seen_keys then st.seen_keys else st.seen_keys ++ [k] := by
  unfold processKeyValue
  dsimp only
  rw [seen_dispatchKey]
  split <;> rfl

theorem errors_append_processKeyValue (st : PState) (ln : Nat) (k v : String) :
    ∃ l, (processKeyValue st ln k v).errors = st.errors ++ l := by
  unfold processKeyValue
  dsimp only
  split
  · exact exists_suffix_trans ⟨_, errors_addErr st ln _⟩ (errors_append_dispatchKey _ ln k v)
  · exact errors_append_dispatchKey _ ln k v

theorem dup_mem_processKeyValue (st : PState) (ln : Nat) (k v : String)
    (hseen : k ∈ st.seen_keys) (hnex : pyStartsWith k "exclusion." = false) :
    errMsg ln ("Duplicate key: " ++ k) ∈ (processKeyValue st ln k v).errors := by
  unfold processKeyValue
  dsimp only
  have hcond : k ∈ st.seen_keys ∧ ¬ pyStartsWith k "exclusion." = true := by
    exact ⟨hseen, by simp [hnex]⟩
  rw [if_pos hcond]
  obtain ⟨l, hl⟩ := errors_append_dispatchKey
    { addErr st ln ("Duplicate key: " ++ k) with seen_keys :=
        if k ∈ (addErr st ln ("Duplicate key: " ++ k)).seen_keys then
          (addErr st ln ("Duplicate key: " ++ k)).seen_keys
        else (addErr st ln ("Duplicate key: " ++ k)).seen_keys ++ [k] } ln k v
  rw [hl]
  simp [addErr]

theorem errExt_refl (st : PState) : ∃ l, st.errors = st.errors ++ l := ⟨[], by simp⟩

theorem errExt_addErr {st st2 : PState} (ln : Nat) (m : String)
    (h : ∃ l, st2.errors = st.errors ++ l) :
    ∃ l, (addErr st2 ln m).errors = st.errors ++ l :=
  exists_suffix_trans h ⟨_, rfl⟩

theorem errExt_addWarn {st st2 : PState} (ln : Nat) (m : String)
    (h : ∃ l, st2.errors = st.errors ++ l) :
    ∃ l, (addWarn st2 ln m).errors = st.errors ++ l :=
  exists_suffix_trans h ⟨[], by simp [addWarn]⟩

theorem errors_append_needConvStep (fcs : List ((String × Nat) × FCRec))
    (s : PState) (p : (String × Nat) × FontDefRec) :
    ∃ l, (needConvStep fcs s p).errors = s.errors ++ l := by
  unfold needConvStep
  dsimp only
  repeat' split
  all_goals
    first
    | exact errExt_refl _
    | exact errExt_addErr _ _ (errExt_refl _)
    | exact errExt_addWarn _ _ (errExt_refl _)
    | exact errExt_addErr _ _ (errExt_addErr _ _ (errExt_refl _))


theorem errors_append_globalsChecks (st : PState) :
    ∃ l, (globalsChecks st).errors = st.errors ++ l := by
  unfold globalsChecks
  dsimp only
  split
  · split
    · exact ⟨["Global: default.char is missing", "Global: inputtextcharset is missing"],
        by simp⟩
    · exact ⟨_, rfl⟩
  · split
    · exact ⟨_, rfl⟩
    · exact errExt_refl st

theorem errors_append_contiguityFold (bf : List (String × List Nat)) (st : PState) :
    ∃ l, (bf.foldl contiguityStep st).errors = st.errors ++ l :=
  errors_foldl_append _ (fun s a => ⟨_, rfl⟩) bf st

theorem errors_append_danglingStep (fds : List ((String × Nat) × FontDefRec))
    (s : PState) (p : (String × Nat) × FCRec) :
    ∃ l, (danglingStep fds s p).errors = s.errors ++ l := by
  unfold danglingStep
  split
  · exact errExt_addWarn _ _ (errExt_refl s)
  · exact errExt_refl s

theorem errors_append_needConvertedChecks (fds : List ((String × Nat) × FontDefRec))
    (fcs : List ((String × Nat) × FCRec)) (st : PState) :
    ∃ l, (needConvertedChecks fds fcs st).errors = st.errors ++ l :=
  errors_foldl_append _ (errors_append_needConvStep fcs) fds st

theorem errors_append_danglingChecks (fds : List ((String × Nat) × FontDefRec))
    (fcs : List ((String × Nat) × FCRec)) (st : PState) :
    ∃ l, (danglingChecks fds fcs st).errors = st.errors ++ l :=
  errors_foldl_append _ (errors_append_danglingStep fds) fcs st

theorem errors_append_semanticChecks (st : PState) :
    ∃ l, (semanticChecks st).errors = st.errors ++ l := by
  have h1 := errors_append_globalsChecks st
  have h2 := errors_append_contiguityFold (by_family (globalsChecks st).font_defs)
    (globalsChecks st)
  set st3 := (by_family (globalsChecks st).font_defs).foldl contiguityStep
    (globalsChecks st) with hst3
  have h3 := errors_append_needConvertedChecks st3.font_defs st3.fontcharset st3
  set st4 := needConvertedChecks st3.font_defs st3.fontcharset st3 with hst4
  have h4 := errors_append_danglingChecks st4.font_defs st4.fontcharset st4
  show ∃ l, (danglingChecks st4.font_defs st4.fontcharset st4).errors = st.errors ++ l
  exact exists_suffix_trans (exists_suffix_trans (exists_suffix_trans h1 h2) h3) h4

theorem errors_append_processLine (st : PState) (ln : Nat) (raw : String) :
    ∃ l, (processLine st ln raw).errors = st.errors ++ l := by
  unfold processLine
  dsimp only
  split
  · exact errExt_refl st
  · split
    · exact ⟨_, rfl⟩
    · exact errors_append_processKeyValue st ln _ _

theorem errors_mem_processLine (st : PState) (ln : Nat) (raw : String) (x : String)
    (h : x ∈ st.errors) : x ∈ (processLine st ln raw).errors := by
  obtain ⟨l, hl⟩ := errors_append_processLine st ln raw
  rw [hl]
  exact List.mem_append_left _ h

theorem processLine_eq (st : PState) (ln : Nat) (raw : String) (k : String)
    (h : lineKey raw = some k) :
    processLine st ln raw =
      processKeyValue st ln k
        (evaluate_arithmetic_value
          (pyStrip (splitFirst '=' (evaluate_key_arithmetic (pyStrip raw))).2)) := by
  unfold lineKey at h
  unfold processLine
  dsimp only at h ⊢
  by_cases h1 : pyStrip raw = "" ∨ pyStartsWith (pyStrip raw) "#" = true
  · rw [if_pos h1] at h
    cases h
  · rw [if_neg h1] at h ⊢
    by_cases h2 : ¬ pyContainsChar (evaluate_key_arithmetic (pyStrip raw)) '=' = true
    · rw [if_pos h2] at h
      cases h
    · rw [if_neg h2] at h ⊢
      injection h with h
      rw [h]

theorem seen_mem_processLine (st : PState) (ln : Nat) (raw : String) (k : String)
    (h : k ∈ st.seen_keys) : k ∈ (processLine st ln raw).seen_keys := by
  unfold processLine
  dsimp only
  split
  · exact h
  · split
    · exact h
    · rw [seen_processKeyValue]
      split
      · exact h
      · exact List.mem_append_left _ h

theorem seen_insert_processLine (st : PState) (ln : Nat) (raw : String) (k : String)
    (h : lineKey raw = some k) : k ∈ (processLine st ln raw).seen_keys := by
  rw [processLine_eq st ln raw k h, seen_processKeyValue]
  split
  next hmem => exact hmem
  next hmem => simp

theorem dup_mem_processLine (st : PState) (ln : Nat) (raw : String) (k : String)
    (h : lineKey raw = some k) (hseen : k ∈ st.seen_keys)
    (hnex : pyStartsWith k "exclusion." = false) :
    errMsg ln ("Duplicate key: " ++ k) ∈ (processLine st ln raw).errors := by
  rw [processLine_eq st ln raw k h]
  exact dup_mem_processKeyValue st ln k _ hseen hnex

theorem errors_mem_parseLines (x : String) :
    ∀ (lines : List String) (st : PState) (n : Nat),
      x ∈ st.errors → x ∈ (parseLines st n lines).errors
  | [], _, _, h => h
  | l :: ls, st, n, h =>
    errors_mem_parseLines x ls (processLine st n l) (n + 1)
      (errors_mem_processLine st n l x h)

theorem dup_parseLines_of_seen :
    ∀ (lines : List String) (st : PState) (n j : Nat) (k : String)
      (hj : j < lines.length),
      lineKey (lines.get ⟨j, hj⟩) = some k → k ∈ st.seen_keys →
      pyStartsWith k "exclusion." = false →
      errMsg (n + j) ("Duplicate key: " ++ k) ∈ (parseLines st n lines).errors := by
  intro lines
  induction lines with
  | nil =>
    intro st n j k hj
    exact absurd hj (by simp)
  | cons l ls ih =>
    intro st n j k hj hkey hseen hnex
    cases j with
    | zero =>
      have hd : errMsg n ("Duplicate key: " ++ k) ∈ (processLine st n l).errors :=
        dup_mem_processLine st n l k hkey hseen hnex
      simpa using errors_mem_parseLines _ ls (processLine st n l) (n + 1) hd
    | succ j2 =>
      have hj2 : j2 < ls.length := by simpa using hj
      have hres := ih (processLine st n l) (n + 1) j2 k hj2 hkey
        (seen_mem_processLine st n l k hseen) hnex
      have harith : n + 1 + j2 = n + (j2 + 1) := by omega
      rw [harith] at hres
      exact hres

theorem dup_parseLines_pair :
    ∀ (lines : List String) (st : PState) (n i j : Nat) (k : String)
      (hi : i < lines.length) (hj : j < lines.length), i < j →
      lineKey (lines.get ⟨i, hi⟩) = some k →
      lineKey (lines.get ⟨j, hj⟩) = some k →
      pyStartsWith k "exclusion." = false →
      errMsg (n + j) ("Duplicate key: " ++ k) ∈ (parseLines st n lines).errors := by
  intro lines
  induction lines with
  | nil =>
    intro st n i j k hi
    exact absurd hi (by simp)
  | cons l ls ih =>
    intro st n i j k hi hj hij hki hkj hnex
    cases i with
    | zero =>
      cases j with
      | zero => exact absurd hij (by omega)
      | succ j2 =>
        have hj2 : j2 < ls.length := by simpa using hj
        have hseen : k ∈ (processLine st n l).seen_keys :=
          seen_insert_processLine st n l k hki
        have hres := dup_parseLines_of_seen ls (processLine st n l) (n + 1) j2 k hj2
          hkj hseen hnex
        have harith : n + 1 + j2 = n + (j2 + 1) := by omega
        rw [harith] at hres
        exact hres
    | succ i2 =>
      cases j with
      | zero => exact absurd hij (by omega)
      | succ j2 =>
        have hi2 : i2 < ls.length := by simpa using hi
        have hj2 : j2 < ls.length := by simpa using hj
        have hres := ih (processLine st n l) (n + 1) i2 j2 k hi2 hj2 (by omega) hki hkj hnex
        have harith : n + 1 + j2 = n + (j2 + 1) := by omega
        rw [harith] at hres
        exact hres

theorem seenRepl_processDefaultChar (st : PState) (s : List String) (ln : Nat)
    (value : String) :
    processDefaultChar { st with seen_keys := s } ln value =
      { processDefaultChar st ln value with seen_keys := s } := by
  unfold processDefaultChar addErr
  dsimp only
  split
  · rfl
  · split
    · rfl
    · split
      · rfl
      · rfl

theorem seenRepl_processInputTextCharset (st : PState) (s : List String) (ln : Nat)
    (value : String) :
    processInputTextCharset { st with seen_keys := s } ln value =
      { processInputTextCharset st ln value with seen_keys := s } := by
  unfold processInputTextCharset addErr
  split <;> rfl

theorem seenRepl_processFontcharset (st : PState) (s : List String) (ln : Nat)
    (family : String) (idx : Nat) (value : String) :
    processFontcharset { st with seen_keys := s } ln family idx value =
      { processFontcharset st ln family idx value with seen_keys := s } := by
  unfold processFontcharset addErr
  split <;> rfl

theorem seenRepl_processExclusion (st : PState) (s : List String) (ln : Nat)
    (family : String) (idx : Nat) (value : String) :
    processExclusion { st with seen_keys := s } ln family idx value =
      { processExclusion st ln family idx value with seen_keys := s } := by
  unfold processExclusion addErr
  dsimp only
  split
  · rfl
  · split
    · split
      · rfl
      · rfl
    · rfl

theorem seenRepl_processFlagErr (ln : Nat) (family : String) (idx : Nat)
    (st : PState) (s : List String) (fl : String) :
    processFlagErr ln family idx { st with seen_keys := s } fl =
      { processFlagErr ln family idx st fl with seen_keys := s } := by
  unfold processFlagErr addErr
  split <;> rfl

theorem seenRepl_foldl_flagErr (ln : Nat) (family : String) (idx : Nat) :
    ∀ (flags : List String) (st : PState) (s : List String),
      flags.foldl (processFlagErr ln family idx) { st with seen_keys := s } =
        { flags.foldl (processFlagErr ln family idx) st with seen_keys := s }
  | [], _, _ => rfl
  | fl :: fls, st, s => by
    rw [List.foldl_cons, List.foldl_cons, seenRepl_processFlagErr,
      seenRepl_foldl_flagErr ln family idx fls]

theorem seenRepl_addErr (st : PState) (s : List String) (ln : Nat) (m : String) :
    addErr { st with seen_keys := s } ln m = { addErr st ln m with seen_keys := s } := rfl

theorem font_defs_addErr (st : PState) (ln : Nat) (m : String) :
    (addErr st ln m).font_defs = st.font_defs := rfl

theorem font_defs_withSeen (st : PState) (s : List String) :
    ({ st with seen_keys := s } : PState).font_defs = st.font_defs := rfl

theorem seenRepl_processFamilyDef (st : PState) (s : List String) (ln : Nat)
    (family : String) (idx : Nat) (value : String) :
    processFamilyDef { st with seen_keys := s } ln family idx value =
      { processFamilyDef st ln family idx value with seen_keys := s } := by
  unfold processFamilyDef
  dsimp only
  split
  · rfl
  · rfl
  next font_name charset flags hparts =>
    rw [seenRepl_foldl_flagErr]
    by_cases hcs : ¬ charset ∈ CHARSETS
    · simp only [if_pos hcs, font_defs_addErr, font_defs_withSeen]
      split <;> rfl
    · simp only [if_neg hcs, font_defs_addErr, font_defs_withSeen]
      split <;> rfl

theorem seenRepl_dispatchKey (st : PState) (s : List String) (ln : Nat)
    (k v : String) :
    dispatchKey { st with seen_keys := s } ln k v =
      { dispatchKey st ln k v with seen_keys := s } := by
  unfold dispatchKey
  split
  · exact seenRepl_processDefaultChar st s ln v
  · split
    · exact seenRepl_processInputTextCharset st s ln v
    · split
      · exact seenRepl_processFontcharset st s ln _ _ v
      · split
        · exact seenRepl_processExclusion st s ln _ _ v
        · split
          · exact seenRepl_processFamilyDef st s ln _ _ v
          · rfl

/-- C7: a key (the text left of the first `=`) repeated on two statement
lines is reported as a duplicate exactly when it is outside the
`exclusion.*` namespace, and the error is attributed to the later line
(line numbers are 1-based).  For `exclusion.*` keys the duplicate check is
skipped entirely: the diagnostics produced by a line are independent of
which keys were already seen. -/
theorem C7_duplicate_key :
    (∀ (lines : List String) (i j : Nat) (k : String) (hi : i < lines.length)
        (hj : j < lines.length), i < j →
        lineKey (lines.get ⟨i, hi⟩) = some k →
        lineKey (lines.get ⟨j, hj⟩) = some k →
        pyStartsWith k "exclusion." = false →
        errMsg (j + 1) ("Duplicate key: " ++ k) ∈ (parse_properties lines).errors)
    ∧ (∀ (st : PState) (s2 : List String) (ln : Nat) (k v : String),
        pyStartsWith k "exclusion." = true →
        (processKeyValue { st with seen_keys := s2 } ln k v).errors =
          (processKeyValue st ln k v).errors) := by
  constructor
  · intro lines i j k hi hj hij hki hkj hnex
    have hdup := dup_parseLines_pair lines initState 1 i j k hi hj hij hki hkj hnex
    have harith : 1 + j = j + 1 := by omega
    rw [harith] at hdup
    obtain ⟨l, hl⟩ := errors_append_semanticChecks (parseLines initState 1 lines)
    unfold parse_properties
    rw [hl]
    exact List.mem_append_left _ hdup
  · intro st s2 ln k v hex
    unfold processKeyValue
    dsimp only
    have hc1 : ¬ (k ∈ ({ st with seen_keys := s2 } : PState).seen_keys ∧
        ¬ pyStartsWith k "exclusion." = true) := by
      simp [hex]
    have hc2 : ¬ (k ∈ st.seen_keys ∧ ¬ pyStartsWith k "exclusion." = true) := by
      simp [hex]
    rw [if_neg hc1, if_neg hc2]
    by_cases hm1 : k ∈ s2
    · by_cases hm2 : k ∈ st.seen_keys
      · rw [if_pos (by exact hm1), if_pos hm2]
        rw [show ({ ({ st with seen_keys := s2 } : PState) with seen_keys := s2 } : PState)
            = { st with seen_keys := s2 } from rfl]
        rw [show ({ st with seen_keys := st.seen_keys } : PState) = st from rfl]
        rw [seenRepl_dispatchKey]
      · rw [if_pos (by exact hm1), if_neg hm2]
        rw [show ({ ({ st with seen_keys := s2 } : PState) with seen_keys := s2 } : PState)
            = { st with seen_keys := s2 } from rfl]
        rw [seenRepl_dispatchKey st s2 ln k v,
          seenRepl_dispatchKey st (st.seen_keys ++ [k]) ln k v]
    · by_cases hm2 : k ∈ st.seen_keys
      · rw [if_neg (by exact hm1), if_pos hm2]
        rw [show ({ st with seen_keys := st.seen_keys } : PState) = st from rfl]
        rw [show ({ ({ st with seen_keys := s2 } : PState) with seen_keys := s2 ++ [k] } : PState)
            = { st with seen_keys := s2 ++ [k] } from rfl]
        rw [seenRepl_dispatchKey]
      · rw [if_neg (by exact hm1), if_neg hm2]
        rw [show ({ ({ st with seen_keys := s2 } : PState) with seen_keys := s2 ++ [k] } : PState)
            = { st with seen_keys := s2 ++ [k] } from rfl]
        rw [seenRepl_dispatchKey st (s2 ++ [k]) ln k v,
          seenRepl_dispatchKey st (st.seen_keys ++ [k]) ln k v]

theorem C7_duplicate_key_witness :
    errMsg 2 ("Duplicate key: " ++ "a.0") ∈
      (parse_properties ["a.0=X,ANSI_CHARSET", "a.0=Y,ANSI_CHARSET"]).errors :=
  C7_duplicate_key.1 ["a.0=X,ANSI_CHARSET", "a.0=Y,ANSI_CHARSET"] 0 1 "a.0"
    (by decide) (by decide) (by decide) (by decide) (by decide) (by decide)

/-- C4 (counterexample): the line `default.char=60+5` carries a value that
does not parse as a base-10 integer, yet the parser records no error and
sets `default_char` to 65 — the value is arithmetic-pre-evaluated before
the integer check, so the claimed rejection of `60+5` is false. -/
theorem C4_counterexample :
    pyInt10 "60+5" = none ∧
    (parse_properties ["default.char=60+5", "inputtextcharset=ANSI_CHARSET"]).errors = [] ∧
    (parse_properties ["default.char=60+5", "inputtextcharset=ANSI_CHARSET"]).defaultChar
      = some 65 := by
  refine ⟨by decide, by decide, by decide⟩

/-- C4 (amended): the value of a `default.char` statement is first
arithmetic-pre-evaluated; the branch then receives the rewritten value, and
when that value fails to parse as a base-10 integer (including the empty
value) or parses outside `[0, 0x10FFFF]`, exactly one error is recorded for
the line and the `default_char` global is left unchanged — never clamped.
A pure arithmetic expression such as `60+5` is therefore accepted as 65
rather than rejected. -/
theorem C4_default_char_error (st : PState) (ln : Nat) (value : String)
    (h : pyInt10 value = none ∨
      ∃ v, pyInt10 value = some v ∧ ¬ (0 ≤ v ∧ v ≤ 0x10FFFF)) :
    (processDefaultChar st ln value).defaultChar = st.defaultChar ∧
    (processDefaultChar st ln value).errors.length = st.errors.length + 1 := by
  unfold processDefaultChar
  by_cases he : value = ""
  · simp [he, addErr]
  · rcases h with h | ⟨v, hv, hr⟩
    · simp [he, h, addErr]
    · simp [he, hv, hr, addErr]

theorem C4_default_char_error_witness :
    (processDefaultChar initState 1 "abc").defaultChar = none ∧
    (processDefaultChar initState 1 "abc").errors.length = 1 :=
  C4_default_char_error initState 1 "abc" (Or.inl (by decide))

/-- C9: an `exclusion.<family>.<index>=<hex>-<hex>` statement whose parsed
hex bounds violate `0 ≤ start ≤ end ≤ 0xFFFF` (for instance `start > end`)
makes the extraction record exactly one Range error for that line, and the
range is not added to the parsed exclusion data (so it can appear in no
normalized model, which is built from that data). -/
theorem C9_exclusion_range_error (st : PState) (ln : Nat) (family : String)
    (idx : Nat) (value : String) (s_val e_val : Int)
    (hc : pyContainsChar value '-' = true)
    (hs : pyInt16 (pyStrip (splitFirst '-' value).1) = some s_val)
    (he : pyInt16 (pyStrip (splitFirst '-' value).2) = some e_val)
    (hr : ¬ (0 ≤ s_val ∧ s_val ≤ e_val ∧ e_val ≤ 0xFFFF)) :
    processExclusion st ln family idx value =
      addErr st ln
        ("exclusion range must satisfy 0x0000 <= start <= end <= 0xFFFF, got: " ++ value) ∧
    (processExclusion st ln family idx value).exclusions = st.exclusions ∧
    (processExclusion st ln family idx value).errors.length = st.errors.length + 1 := by
  have hmain : processExclusion st ln family idx value =
      addErr st ln
        ("exclusion range must satisfy 0x0000 <= start <= end <= 0xFFFF, got: " ++ value) := by
    unfold processExclusion
    dsimp only
    rw [if_neg (by simp [hc])]
    rw [hs, he]
    dsimp only
    rw [if_pos hr]
  refine ⟨hmain, ?_, ?_⟩ <;> rw [hmain] <;> simp [addErr]

theorem C9_exclusion_range_error_witness :
    processExclusion initState 3 "serif" 0 "0100-00FF" =
      addErr initState 3
        ("exclusion range must satisfy 0x0000 <= start <= end <= 0xFFFF, got: " ++
          "0100-00FF") ∧
    (processExclusion initState 3 "serif" 0 "0100-00FF").exclusions = [] ∧
    (processExclusion initState 3 "serif" 0 "0100-00FF").errors.length = 1 :=
  C9_exclusion_range_error initState 3 "serif" 0 "0100-00FF" 256 255
    (by decide) (by decide) (by decide) (by decide)

theorem mem_pySortedSet (l : List Nat) (x : Nat) : x ∈ pySortedSet l ↔ x ∈ l := by
  unfold pySortedSet
  rw [(List.perm_insertionSort _ l.dedup).mem_iff, List.mem_dedup]

theorem sorted_pySortedSet (l : List Nat) : List.Sorted (· ≤ ·) (pySortedSet l) :=
  List.sorted_insertionSort _ _

theorem sorted_le_getLast :
    ∀ (l : List Nat) (h : l ≠ []), List.Sorted (· ≤ ·) l →
      ∀ x ∈ l, x ≤ l.getLast h
  | [], h, _, _, _ => absurd rfl h
  | [a], _, _, x, hx => by
    simp only [List.mem_singleton] at hx
    simp [hx]
  | a :: b :: t, _, hs, x, hx => by
    rw [List.sorted_cons] at hs
    rw [List.getLast_cons (List.cons_ne_nil b t)]
    rcases List.mem_cons.mp hx with hx | hx
    · subst hx
      exact le_trans (hs.1 _ (List.getLast_mem (List.cons_ne_nil b t)))
        (le_refl _)
    · exact sorted_le_getLast (b :: t) (List.cons_ne_nil b t) hs.2 x hx

/-- C6: the contiguity check is silent exactly when the family's index set is
downward closed (for a nonempty set, that means it is exactly `{0..max}`); a
sorted-set minimum other than 0 is reported with the found minimum, and the
index set `{0, 1, 3}` always produces exactly the one contiguity error
naming missing index 2. -/
theorem C6_contiguity (fam : String) (idxs : List Nat) :
    (contiguityErrors fam idxs = [] ↔ ∀ i j, j ∈ idxs → i ≤ j → i ∈ idxs)
    ∧ (∀ s0 srest, pySortedSet idxs = s0 :: srest → s0 ≠ 0 →
        ("Family " ++ pySq ++ fam ++ pySq ++ ": indices must start at 0, found " ++
          toString s0) ∈ contiguityErrors fam idxs)
    ∧ contiguityErrors fam [0, 1, 3] =
        ["Family " ++ pySq ++ fam ++ pySq ++ ": indices not contiguous, missing " ++ "[2]"] := by
  refine ⟨?_, ?_, ?_⟩
  · have hmem : ∀ x, x ∈ pySortedSet idxs ↔ x ∈ idxs := mem_pySortedSet idxs
    have hsort := sorted_pySortedSet idxs
    unfold contiguityErrors
    rcases hS : pySortedSet idxs with _ | ⟨s0, srest⟩
    · have hempty : ∀ x, ¬ x ∈ idxs := by
        intro x hx
        have := (hmem x).mpr hx
        rw [hS] at this
        cases this
      simp only [true_iff]
      intro i j hj
      exact absurd hj (hempty j)
    · rw [hS] at hsort
      have hs0min : ∀ x ∈ s0 :: srest, s0 ≤ x := by
        intro x hx
        rcases List.mem_cons.mp hx with hx | hx
        · simp [hx]
        · exact (List.sorted_cons.mp hsort).1 x hx
      have hmemS : ∀ x, x ∈ s0 :: srest ↔ x ∈ idxs := by
        intro x
        rw [← hS]
        exact hmem x
      have hlast_mem : (s0 :: srest).getLast (List.cons_ne_nil s0 srest) ∈ s0 :: srest :=
        List.getLast_mem _
      have hle_last : ∀ x ∈ s0 :: srest,
          x ≤ (s0 :: srest).getLast (List.cons_ne_nil s0 srest) :=
        sorted_le_getLast _ _ hsort
      dsimp only
      set lastv := (s0 :: srest).getLast (List.cons_ne_nil s0 srest) with hlastv
      constructor
      · intro hnil
        have hboth : ¬ s0 ≠ 0 ∧
            (List.range' s0 (lastv + 1 - s0)).filter
              (fun i => decide (¬ i ∈ s0 :: srest)) = [] := by
          by_cases h0 : s0 ≠ 0
          · rw [if_pos h0] at hnil
            simp at hnil
          · rw [if_neg h0] at hnil
            refine ⟨h0, ?_⟩
            by_cases hm : (List.range' s0 (lastv + 1 - s0)).filter
                (fun i => decide (¬ i ∈ s0 :: srest)) = []
            · exact hm
            · rw [if_pos (by simpa using hm)] at hnil
              cases hnil
        obtain ⟨h0, hfil⟩ := hboth
        have hs0z : s0 = 0 := by omega
        intro i j hj hij
        have hjS : j ∈ s0 :: srest := (hmemS j).mpr hj
        have hjlast : j ≤ lastv := hle_last j hjS
        have hiexp : i ∈ List.range' s0 (lastv + 1 - s0) := by
          rw [List.mem_range'_1]
          constructor
          · omega
          · have : s0 ≤ lastv := hle_last s0 (List.mem_cons_self s0 srest)
            omega
        have := List.filter_eq_nil_iff.mp hfil i hiexp
        simp at this
        refine (hmemS i).mp ?_
        rw [List.mem_cons]
        by_cases hi0 : i = s0
        · exact Or.inl hi0
        · exact Or.inr (this hi0)
      · intro hdc
        have hs0S : s0 ∈ s0 :: srest := List.mem_cons_self s0 srest
        have hs0idx : s0 ∈ idxs := (hmemS s0).mp hs0S
        have h0idx : (0 : Nat) ∈ idxs := hdc 0 s0 hs0idx (Nat.zero_le s0)
        have h0S : (0 : Nat) ∈ s0 :: srest := (hmemS 0).mpr h0idx
        have hs0z : s0 = 0 := Nat.le_antisymm (by simpa using hs0min 0 h0S) (Nat.zero_le s0)
        have hlast_idx : lastv ∈ idxs := (hmemS lastv).mp hlast_mem
        have hfil : (List.range' s0 (lastv + 1 - s0)).filter
            (fun i => decide (¬ i ∈ s0 :: srest)) = [] := by
          rw [List.filter_eq_nil_iff]
          intro a ha
          rw [List.mem_range'_1] at ha
          have hs0last : s0 ≤ lastv := hle_last s0 hs0S
          have halast : a ≤ lastv := by omega
          have haidx : a ∈ idxs := hdc a lastv hlast_idx halast
          have haS : a ∈ s0 :: srest := (hmemS a).mpr haidx
          simp [haS]
        rw [if_neg (by omega), hfil, if_neg (by simp)]
        rfl
  · intro s0 srest hS hs0
    unfold contiguityErrors
    rw [hS]
    dsimp only
    rw [if_pos hs0]
    exact List.mem_append_left _ (List.mem_cons_self _ _)
  · rfl

theorem C6_contiguity_witness :
    contiguityErrors "serif" [0, 1, 2] = [] ∧
    ("Family " ++ pySq ++ "serif" ++ pySq ++ ": indices must start at 0, found " ++
        toString 2) ∈ contiguityErrors "serif" [2, 3] :=
  ⟨((C6_contiguity "serif" [0, 1, 2]).1).mpr
      (by
        intro i j hj hij
        fin_cases hj <;> (simp only [List.mem_cons, List.mem_singleton]; omega)),
   (C6_contiguity "serif" [2, 3]).2.1 2 [3] (by decide) (by decide)⟩

instance : IsTotal NRange rangeLe := ⟨by
  intro a b
  unfold rangeLe
  rcases lt_trichotomy a.start b.start with h | h | h
  · exact Or.inl (Or.inl h)
  · rcases le_total a.end_ b.end_ with h2 | h2
    · exact Or.inl (Or.inr ⟨h, h2⟩)
    · exact Or.inr (Or.inr ⟨h.symm, h2⟩)
  · exact Or.inr (Or.inl h)⟩

instance : IsTrans NRange rangeLe := ⟨by
  intro a b c hab hbc
  unfold rangeLe at hab hbc ⊢
  rcases hab with h | ⟨h1, h2⟩
  · rcases hbc with g | ⟨g1, g2⟩
    · exact Or.inl (lt_trans h g)
    · exact Or.inl (g1 ▸ h)
  · rcases hbc with g | ⟨g1, g2⟩
    · exact Or.inl (h1 ▸ g)
    · exact Or.inr ⟨h1.trans g1, le_trans h2 g2⟩⟩

theorem dedupeKeepFirst_sublist :
    ∀ (seen l : List NRange), List.Sublist (dedupeKeepFirst seen l) l
  | _, [] => List.Sublist.refl []
  | seen, r :: rs => by
    unfold dedupeKeepFirst
    split
    · exact List.Sublist.cons r (dedupeKeepFirst_sublist seen rs)
    · exact List.Sublist.cons₂ r (dedupeKeepFirst_sublist (r :: seen) rs)

theorem mem_dedupeKeepFirst :
    ∀ (seen l : List NRange) (x : NRange),
      x ∈ dedupeKeepFirst seen l ↔ x ∈ l ∧ ¬ x ∈ seen
  | seen, [], x => by simp [dedupeKeepFirst]
  | seen, r :: rs, x => by
    unfold dedupeKeepFirst
    split
    next hmem =>
      rw [mem_dedupeKeepFirst seen rs x]
      constructor
      · rintro ⟨h1, h2⟩
        exact ⟨List.mem_cons_of_mem r h1, h2⟩
      · rintro ⟨h1, h2⟩
        rcases List.mem_cons.mp h1 with h | h
        · exact absurd (h ▸ hmem) h2
        · exact ⟨h, h2⟩
    next hmem =>
      simp only [List.mem_cons, mem_dedupeKeepFirst (r :: seen) rs x]
      constructor
      · rintro (h | ⟨h1, h2⟩)
        · exact ⟨Or.inl h, h ▸ hmem⟩
        · push_neg at h2
          exact ⟨Or.inr h1, h2.2⟩
      · rintro ⟨h1 | h1, h2⟩
        · exact Or.inl h1
        · by_cases hr : x = r
          · exact Or.inl hr
          · refine Or.inr ⟨h1, ?_⟩
            push_neg
            exact ⟨hr, h2⟩

theorem nodup_dedupeKeepFirst :
    ∀ (seen l : List NRange), (dedupeKeepFirst seen l).Nodup
  | _, [] => List.nodup_nil
  | seen, r :: rs => by
    unfold dedupeKeepFirst
    split
    · exact nodup_dedupeKeepFirst seen rs
    · rw [List.nodup_cons]
      refine ⟨?_, nodup_dedupeKeepFirst (r :: seen) rs⟩
      intro hmem
      exact ((mem_dedupeKeepFirst (r :: seen) rs r).mp hmem).2 (List.mem_cons_self r seen)

theorem lookupA_none_of_not_mem_keys {α β : Type} [DecidableEq α] :
    ∀ (l : List (α × β)) (k : α), ¬ k ∈ l.map Prod.fst → lookupA l k = none
  | [], _, _ => rfl
  | p :: rest, k, h => by
    have hne : ¬ p.1 = k := fun heq =>
      h (heq ▸ List.mem_map.mpr ⟨p, List.mem_cons_self p rest, rfl⟩)
    have hrest : ¬ k ∈ rest.map Prod.fst := by
      intro hmem
      rw [List.map_cons] at h
      exact h (List.mem_cons_of_mem _ hmem)
    unfold lookupA
    rw [if_neg hne]
    exact lookupA_none_of_not_mem_keys rest k hrest

theorem lookupA_normalizeExclusions_none :
    ∀ (exl : List (String × List ExRec)) (fam : String),
      ¬ fam ∈ exl.map Prod.fst → lookupA (normalizeExclusions exl) fam = none
  | [], _, _ => rfl
  | (f, rs) :: rest, fam, h => by
    have hf : ¬ f = fam := by
      intro heq
      exact h (heq ▸ List.mem_map.mpr ⟨(f, rs), List.mem_cons_self _ _, rfl⟩)
    have hrest : ¬ fam ∈ rest.map Prod.fst := by
      intro hmem
      rw [List.map_cons] at h
      exact h (List.mem_cons_of_mem _ hmem)
    unfold normalizeExclusions
    rw [List.filterMap_cons]
    dsimp only
    by_cases hrs : rs = []
    · rw [if_pos hrs]
      exact lookupA_normalizeExclusions_none rest fam hrest
    · rw [if_neg hrs]
      simp only [lookupA]
      rw [if_neg hf]
      exact lookupA_normalizeExclusions_none rest fam hrest

theorem lookupA_normalizeExclusions :
    ∀ (exl : List (String × List ExRec)), (exl.map Prod.fst).Nodup →
      ∀ (fam : String),
      lookupA (normalizeExclusions exl) fam =
        match lookupA exl fam with
        | none => none
        | some [] => none
        | some l => some (dedupeKeepFirst []
            ((l.map (fun r => NRange.mk r.start r.end_)).insertionSort rangeLe))
  | [], _, fam => rfl
  | (f, rs) :: rest, hkeys, fam => by
    rw [List.map_cons, List.nodup_cons] at hkeys
    obtain ⟨hf, hrest⟩ := hkeys
    unfold normalizeExclusions
    rw [List.filterMap_cons]
    dsimp only
    by_cases hfam : f = fam
    · subst hfam
      have hlook : lookupA ((f, rs) :: rest) f = some rs := by
        simp [lookupA]
      rw [hlook]
      by_cases hrs : rs = []
      · subst hrs
        rw [if_pos rfl]
        exact lookupA_normalizeExclusions_none rest f hf
      · rw [if_neg hrs]
        cases rs with
        | nil => exact absurd rfl hrs
        | cons a l => simp [lookupA]
    · have hlook : lookupA ((f, rs) :: rest) fam = lookupA rest fam := by
        simp [lookupA, hfam]
      rw [hlook]
      by_cases hrs : rs = []
      · rw [if_pos hrs]
        exact lookupA_normalizeExclusions rest hrest fam
      · rw [if_neg hrs]
        simp only [lookupA]
        rw [if_neg hfam]
        exact lookupA_normalizeExclusions rest hrest fam

/-- C8: the normalizer's per-family exclusion list is deduplicated by exact
`(start, end)` equality and sorted ascending by `(start, end)`; a family
with zero exclusion ranges (or absent entirely) is absent from the
normalized map; and two identical exclusion ranges for a family collapse to
one.  The key-nodup hypothesis holds for parse-produced maps, whose keys
are created at most once. -/
theorem C8_exclusion_normalization (exl : List (String × List ExRec))
    (hkeys : (exl.map Prod.fst).Nodup) (fam : String) :
    (lookupA exl fam = none → lookupA (normalizeExclusions exl) fam = none)
    ∧ (lookupA exl fam = some [] → lookupA (normalizeExclusions exl) fam = none)
    ∧ (∀ l, lookupA exl fam = some l → l ≠ [] →
        ∃ nl, lookupA (normalizeExclusions exl) fam = some nl ∧
          List.Sorted rangeLe nl ∧ nl.Nodup ∧
          (∀ r : NRange, r ∈ nl ↔ r ∈ l.map (fun x => NRange.mk x.start x.end_)))
    ∧ normalizeExclusions [("dialog", [ExRec.mk 0x41 0x50 1, ExRec.mk 0x41 0x50 2])] =
        [("dialog", [NRange.mk 0x41 0x50])] := by
  have hmaster := lookupA_normalizeExclusions exl hkeys fam
  refine ⟨?_, ?_, ?_, ?_⟩
  · intro h
    rw [hmaster, h]
  · intro h
    rw [hmaster, h]
  · intro l h hne
    rw [hmaster, h]
    cases l with
    | nil => exact absurd rfl hne
    | cons a t =>
      refine ⟨_, rfl, ?_, nodup_dedupeKeepFirst _ _, ?_⟩
      · exact List.Pairwise.sublist (dedupeKeepFirst_sublist [] _)
          (List.sorted_insertionSort rangeLe _)
      · intro r
        rw [mem_dedupeKeepFirst, (List.perm_insertionSort rangeLe _).mem_iff]
        simp
  · decide

theorem C8_exclusion_normalization_witness :
    ∃ nl, lookupA (normalizeExclusions
        [("dialog", [ExRec.mk 0x50 0x60 1, ExRec.mk 0x41 0x45 2, ExRec.mk 0x50 0x60 3])])
        "dialog" = some nl ∧
      List.Sorted rangeLe nl ∧ nl.Nodup ∧
      (∀ r : NRange, r ∈ nl ↔
        r ∈ [ExRec.mk 0x50 0x60 1, ExRec.mk 0x41 0x45 2, ExRec.mk 0x50 0x60 3].map
          (fun x => NRange.mk x.start x.end_)) :=
  (C8_exclusion_normalization
      [("dialog", [ExRec.mk 0x50 0x60 1, ExRec.mk 0x41 0x45 2, ExRec.mk 0x50 0x60 3])]
      (by decide) "dialog").2.2.1
    [ExRec.mk 0x50 0x60 1, ExRec.mk 0x41 0x45 2, ExRec.mk 0x50 0x60 3]
    (by decide) (by decide)
